import Mathlib

/-!
Chirpy: the request-handling core of `main.go`

A shallow embedding of `src/main.go` (package `main` of `Uttam1916/Chirpy`):
the content filter `CleanBody`, the four resource handlers, the metrics
middleware and the metrics report.

Modelling conventions.

* A Go `string` holding text is a `GoString`, the list of its Unicode code
  points (`Char` is a Unicode scalar value, which is what a rune of valid
  UTF-8 is).  Every string a handler filters comes out of `encoding/json`,
  which only produces valid UTF-8.  Go's `len` counts bytes: it is `len`
  below, the sum of the UTF-8 sizes of the code points.
* Library code that is not part of the repository is a parameter, collected
  in `Lib`: the case table behind `unicode.ToLower` for code points above
  ASCII, `uuid.Parse`, and the JSON rendering of a gateway record.  A request
  carries what `json.NewDecoder(r.Body).Decode` yields for the handler's
  request type, so decoding is an input as well.  `log.Printf` is left out.
* The persistence gateway (`*database.Queries`, package `internal/database`)
  is a parameter too: a record of state-passing functions that may fail.
* `atomic.Int32` is an `Int` kept in the signed 32-bit range by `wrapInt32`.
-/

namespace Chirpy

/-! ## Strings -/

/-- Text held by a Go string: its code points in order. -/
abbrev GoString := List Char

/-- Go's `len(s)`: the number of bytes of the UTF-8 encoding. -/
def len : GoString → Nat
  | [] => 0
  | c :: s => c.utf8Size + len s

/-- Go's `utf8.RuneCountInString(s)`: the number of code points. -/
def runeCount (s : GoString) : Nat := s.length

/-- Go's `unicode.ToLower(r)`: ASCII is handled inline, every other code point
goes through the case table `special` (`unicode.To(unicode.LowerCase, r)`). -/
def unicodeToLower (special : Char → Char) (r : Char) : Char :=
  if r.toNat ≤ 127 then
    if 65 ≤ r.toNat ∧ r.toNat ≤ 90 then Char.ofNat (r.toNat + 32) else r
  else special r

/-- Go's `strings.ToLower(s)`, that is `strings.Map(unicode.ToLower, s)`; the
ASCII fast path of the library computes the same string. -/
def ToLower (special : Char → Char) (s : GoString) : GoString :=
  s.map (unicodeToLower special)

/-- Go's `strings.HasPrefix(s, p)`. -/
def HasPrefix : GoString → GoString → Bool
  | _, [] => true
  | [], _ :: _ => false
  | c :: s, d :: p => c == d && HasPrefix s p

/-- Go's `strings.Index(s, sep)`: the position of the leftmost occurrence of
`sep` in `s`, `none` for Go's `-1`. -/
def Index : GoString → GoString → Option Nat
  | [], sep => if HasPrefix [] sep then some 0 else none
  | c :: s, sep =>
    if HasPrefix (c :: s) sep then some 0 else (Index s sep).map (· + 1)

/-- Go's `strings.Contains(s, sub)`, which is `Index(s, sub) >= 0`. -/
def Contains (s sub : GoString) : Bool := (Index s sub).isSome

/-- The loop of Go's `genSplit` for a non-empty separator: cut at the leftmost
occurrence, continue behind it, stop when `Index` fails.  The library bounds
the loop by `Count(s, sep)`, clamped to `len(s)`; the bound here is the
length of the string, which the loop never exhausts before `Index` fails. -/
def genSplit (sep : GoString) : Nat → GoString → List GoString
  | 0, s => [s]
  | n + 1, s =>
    match Index s sep with
    | none => [s]
    | some m => s.take m :: genSplit sep n (s.drop (m + sep.length))

/-- Go's `strings.Split(s, sep)`; an empty separator explodes the string into
its code points. -/
def Split (s sep : GoString) : List GoString :=
  if sep = [] then s.map (fun c => [c]) else genSplit sep s.length s

/-- Go's `strings.Join(elems, sep)`. -/
def Join : List GoString → GoString → GoString
  | [], _ => []
  | [a], _ => a
  | a :: b :: rest, sep => a ++ sep ++ Join (b :: rest) sep

/-! ## The content filter -/

/-- The denylist of `CleanBody`. -/
def profaneWords : List GoString :=
  ["kerfuffle".data, "sharbert".data, "fornax".data]

/-- The mask written over a denylist word. -/
def mask : GoString := "****".data

/-- One round of the loop of `CleanBody`: lowercase the line, split it at
`word`, join the pieces with the mask. -/
def cleanStep (special : Char → Char) (line word : GoString) : GoString :=
  Join (Split (ToLower special line) word) mask

/-- The function `CleanBody` of `main.go`: the loop over the denylist. -/
def CleanBody (special : Char → Char) (line : GoString) : GoString :=
  profaneWords.foldl (cleanStep special) line

/-! ## Predicates on strings -/

/-- The word `w` occurs in `s` as a contiguous block. -/
def Occurs (w s : GoString) : Prop := ∃ a b, s = a ++ w ++ b

/-- Every code point of `s` is its own lowercase. -/
def LowerClosed (special : Char → Char) (s : GoString) : Prop :=
  ∀ c ∈ s, unicodeToLower special c = c

/-- The word shares no code point with the mask. -/
def MaskFree (w : GoString) : Prop := ∀ c ∈ w, c ∉ mask

instance (w : GoString) : Decidable (MaskFree w) := by
  unfold MaskFree
  infer_instance

/-- The two strings agree as far as both go: one begins with the other. -/
def Agree (u v : GoString) : Bool := HasPrefix u v || HasPrefix v u

/-- No proper tail of `u` agrees with `v` and no proper tail of `v` agrees
with `u`: a copy of `u` and a copy of `v` never overlap at different starts. -/
def Apart (u v : GoString) : Bool :=
  (List.range u.length).all (fun d => d == 0 || !(Agree (u.drop d) v)) &&
  (List.range v.length).all (fun d => d == 0 || !(Agree (v.drop d) u))

/-! ## A filtered line in pieces -/

/-- A piece of a filtered line: a code point that was kept, or a denylist
word that was masked. -/
inductive Tok where
  | plain (c : Char)
  | masked (w : GoString)

/-- The text a piece stands for in the lowercased input. -/
def Tok.source : Tok → GoString
  | .plain c => [c]
  | .masked w => w

/-- The text a piece shows in the output. -/
def Tok.shown : Tok → GoString
  | .plain c => [c]
  | .masked _ => mask

/-- The lowercased input a list of pieces stands for. -/
def sourceOf : List Tok → GoString
  | [] => []
  | t :: ts => t.source ++ sourceOf ts

/-- The output a list of pieces shows. -/
def shownOf : List Tok → GoString
  | [] => []
  | t :: ts => t.shown ++ shownOf ts

/-- A string as pieces that are all kept. -/
def plainToks (s : GoString) : List Tok := s.map Tok.plain

/-! ## A sample of the library -/

/-- Three lines of the Unicode case table: U+00C9 maps to U+00E9, the Kelvin
sign U+212A maps to `k`, and everything else shown here maps to itself. -/
def caseTableExcerpt (r : Char) : Char :=
  if r.toNat = 0xC9 then Char.ofNat 0xE9
  else if r.toNat = 0x212A then 'k'
  else r

/-! ## Records of the persistence gateway and library values -/

/-- A `uuid.UUID`: sixteen bytes, read as one number. -/
structure UUID where
  value : Nat
deriving DecidableEq, Repr

/-- A `time.Time`, as an instant on some clock. -/
abbrev Time := Nat

/-- The record `database.User`. -/
structure User where
  ID : UUID
  CreatedAt : Time
  UpdatedAt : Time
  Email : GoString
deriving DecidableEq, Repr

/-- The record `database.Chirp`. -/
structure Chirp where
  ID : UUID
  CreatedAt : Time
  UpdatedAt : Time
  Body : GoString
  UserID : UUID
deriving DecidableEq, Repr

/-- The argument `database.CreateChirpParams`. -/
structure CreateChirpParams where
  Body : GoString
  UserID : UUID
deriving DecidableEq, Repr

/-- A JSON document, as far as the handlers build one. -/
inductive Json where
  | str (s : String)
  | text (s : GoString)
  | uuid (u : UUID)
  | time (t : Time)
  | obj (fields : List (String × Json))
  | arr (items : List Json)

/-- Library code the handlers call that is not part of the repository. -/
structure Lib where
  /-- The table `unicode.To(unicode.LowerCase, r)` for `r` above ASCII. -/
  lowerCase : Char → Char
  /-- The function `uuid.Parse`; the error carries its message. -/
  uuidParse : GoString → Except String UUID
  /-- How `encoding/json` renders a `database.Chirp` (its field tags are in
  the gateway package). -/
  chirpJSON : Chirp → Json

/-! ## HTTP -/

/-- One write to the response body. -/
inductive Body where
  | text (s : String)
  | json (v : Json)

/-- The state of an `http.ResponseWriter`: header map, status line once
written, and the writes to the body in order. -/
structure ResponseWriter where
  header : List (String × String)
  status : Option Nat
  body : List Body

/-- A response writer nothing has been written to. -/
def ResponseWriter.fresh : ResponseWriter := ⟨[], none, []⟩

/-- The predicate `validHeaderFieldByte` of `net/textproto`: the token
characters of a header name. -/
def validHeaderFieldByte (c : Char) : Bool :=
  (48 ≤ c.toNat && c.toNat ≤ 57) || (65 ≤ c.toNat && c.toNat ≤ 90) ||
  (97 ≤ c.toNat && c.toNat ≤ 122) ||
  [33, 35, 36, 37, 38, 39, 42, 43, 45, 46, 94, 95, 96, 124, 126].contains c.toNat

/-- The loop of `canonicalMIMEHeaderKey`: a letter that begins the key or
follows a hyphen becomes upper case, every other letter lower case. -/
def canonicalLoop : Bool → List Char → List Char
  | _, [] => []
  | upper, c :: s =>
    let d :=
      if upper && 97 ≤ c.toNat && c.toNat ≤ 122 then Char.ofNat (c.toNat - 32)
      else if !upper && 65 ≤ c.toNat && c.toNat ≤ 90 then Char.ofNat (c.toNat + 32)
      else c
    d :: canonicalLoop (d.toNat == 45) s

/-- The function `textproto.CanonicalMIMEHeaderKey`: a key with a character
that is no token character is returned as it is. -/
def CanonicalMIMEHeaderKey (k : String) : String :=
  if k.data.all validHeaderFieldByte then String.mk (canonicalLoop true k.data) else k

/-- The call `w.Header().Set(k, v)`: the key is canonicalised and its values
replaced. -/
def ResponseWriter.Set (w : ResponseWriter) (k v : String) : ResponseWriter :=
  { w with header := (w.header.filter (fun kv => kv.1 != CanonicalMIMEHeaderKey k))
      ++ [(CanonicalMIMEHeaderKey k, v)] }

/-- The call `w.Header().Add(k, v)`: the key is canonicalised and the value
appended. -/
def ResponseWriter.Add (w : ResponseWriter) (k v : String) : ResponseWriter :=
  { w with header := w.header ++ [(CanonicalMIMEHeaderKey k, v)] }

/-- The call `w.WriteHeader(code)`: only the first call sets the status. -/
def ResponseWriter.WriteHeader (w : ResponseWriter) (code : Nat) : ResponseWriter :=
  match w.status with
  | none => { w with status := some code }
  | some _ => w

/-- The call `w.Write(b)`: an unset status becomes 200. -/
def ResponseWriter.Write (w : ResponseWriter) (b : Body) : ResponseWriter :=
  let w1 := w.WriteHeader 200
  { w1 with body := w1.body ++ [b] }

/-- The call `json.NewEncoder(w).Encode(v)`. -/
def ResponseWriter.Encode (w : ResponseWriter) (v : Json) : ResponseWriter :=
  w.Write (Body.json v)

/-- The call `http.Error(w, msg, code)`: a plain-text reply, the message
followed by a newline. -/
def httpError (w : ResponseWriter) (msg : String) (code : Nat) : ResponseWriter :=
  (((w.Set "Content-Type" "text/plain; charset=utf-8").Set
    "X-Content-Type-Options" "nosniff").WriteHeader code).Write (Body.text (msg ++ "\n"))

/-- An `*http.Request` as a handler reads it: the method, what
`json.NewDecoder(r.Body).Decode(&req)` yields for the handler's request type
`α`, and the path values. -/
structure Request (α : Type) where
  Method : String
  Body : Except String α
  PathValue : String → GoString

/-! ## The persistence gateway -/

/-- The gateway `*database.Queries`: each query reads and writes the store
`σ` and may fail with an error, carried as its message. -/
structure Queries (σ : Type) where
  CreateUser : σ → GoString → Except String User × σ
  CreateChirp : σ → CreateChirpParams → Except String Chirp × σ
  GetAllChirps : σ → Except String (List Chirp) × σ
  GetchirpByID : σ → UUID → Except String Chirp × σ

/-- A call to the gateway. -/
inductive Call where
  | CreateUser (email : GoString)
  | CreateChirp (arg : CreateChirpParams)
  | GetAllChirps
  | GetchirpByID (id : UUID)
deriving DecidableEq, Repr

/-- A call to the gateway and whether it returned an error. -/
structure Event where
  call : Call
  failed : Bool
deriving DecidableEq, Repr

/-- Whether a result is an error. -/
def isError {ε α : Type} : Except ε α → Bool
  | .error _ => true
  | .ok _ => false

/-- The gateway `Q` with a journal: every call is appended to the list kept
next to the store. -/
def traced {σ : Type} (Q : Queries σ) : Queries (σ × List Event) where
  CreateUser := fun st email =>
    let res := Q.CreateUser st.1 email
    (res.1, (res.2, st.2 ++ [⟨Call.CreateUser email, isError res.1⟩]))
  CreateChirp := fun st arg =>
    let res := Q.CreateChirp st.1 arg
    (res.1, (res.2, st.2 ++ [⟨Call.CreateChirp arg, isError res.1⟩]))
  GetAllChirps := fun st =>
    let res := Q.GetAllChirps st.1
    (res.1, (res.2, st.2 ++ [⟨Call.GetAllChirps, isError res.1⟩]))
  GetchirpByID := fun st id =>
    let res := Q.GetchirpByID st.1 id
    (res.1, (res.2, st.2 ++ [⟨Call.GetchirpByID id, isError res.1⟩]))

/-! ## The server state -/

/-- A value of `atomic.Int32` after an operation: two's complement wrap. -/
def wrapInt32 (x : Int) : Int := (x + 2147483648) % 4294967296 - 2147483648

/-- The struct `apiConfig`; `db` is the store behind the gateway handle. -/
structure apiConfig (σ : Type) where
  fileserverHits : Int
  db : σ
  platform : String

/-- The call `cfg.fileserverHits.Add(delta)`. -/
def apiConfig.hitsAdd {σ : Type} (cfg : apiConfig σ) (delta : Int) : apiConfig σ :=
  { cfg with fileserverHits := wrapInt32 (cfg.fileserverHits + delta) }

/-- The call `cfg.fileserverHits.Load()`. -/
def apiConfig.hitsLoad {σ : Type} (cfg : apiConfig σ) : Int := cfg.fileserverHits

/-! ## Request and response shapes of the handlers -/

/-- The struct `errorResp` of the chirp handlers. -/
structure errorResp where
  Error : String

/-- The encoding of `errorResp`: its one field has the tag `error`. -/
def errorResp.toJson (e : errorResp) : Json := Json.obj [("error", Json.str e.Error)]

/-- The struct `reqJson` of `handlderCreateChirps`. -/
structure reqJson where
  Body : GoString
  UserID : GoString

/-- The struct `requestBody` of `handlerCreateUser`. -/
structure requestBody where
  Email : GoString

/-- The struct `responseBody` of `handlerCreateUser`. -/
structure responseBody where
  ID : UUID
  CreatedAt : Time
  UpdatedAt : Time
  Email : GoString

/-- The encoding of `responseBody`, by its field tags; `ID` holds
`user.ID.String()`. -/
def responseBody.toJson (b : responseBody) : Json :=
  Json.obj [("id", Json.uuid b.ID), ("created_at", Json.time b.CreatedAt),
    ("updated_at", Json.time b.UpdatedAt), ("email", Json.text b.Email)]

/-- The text `fmt.Sprint("%v", err)`: the two operands side by side. -/
def sprintErr (err : String) : String := "%v" ++ err

/-! ## The handlers -/

/-- The method `handlerCreateUser`. -/
def handlerCreateUser {σ : Type} (Q : Queries σ) (cfg : apiConfig σ) (w : ResponseWriter)
    (r : Request requestBody) : ResponseWriter × apiConfig σ :=
  if r.Method ≠ "POST" then
    (httpError w "method not allowed" 405, cfg)
  else
    match r.Body with
    | .error _ => (httpError w "invalid JSON" 400, cfg)
    | .ok req =>
      match Q.CreateUser cfg.db req.Email with
      | (.error _, db) => (httpError w "could not create user" 500, { cfg with db := db })
      | (.ok user, db) =>
        let resp : responseBody :=
          { ID := user.ID, CreatedAt := user.CreatedAt, UpdatedAt := user.UpdatedAt,
            Email := user.Email }
        ((((w.Set "Content-Type" "application/json").WriteHeader 201).Encode resp.toJson),
          { cfg with db := db })

/-- The method `handlderCreateChirps`. -/
def handlderCreateChirps {σ : Type} (L : Lib) (Q : Queries σ) (cfg : apiConfig σ)
    (w : ResponseWriter) (r : Request reqJson) : ResponseWriter × apiConfig σ :=
  if r.Method ≠ "POST" then
    ((w.WriteHeader 405).Encode (errorResp.toJson ⟨"Method not allowed"⟩), cfg)
  else
    match r.Body with
    | .error _ => ((w.WriteHeader 400).Encode (errorResp.toJson ⟨"Invalid JSON"⟩), cfg)
    | .ok req =>
      let body := CleanBody L.lowerCase req.Body
      if len body > 140 then
        ((w.WriteHeader 400).Encode (errorResp.toJson ⟨"Chirp is too long"⟩), cfg)
      else
        match L.uuidParse req.UserID with
        | .error _ =>
          ((w.WriteHeader 400).Encode (errorResp.toJson ⟨"Invalid user_id"⟩), cfg)
        | .ok userUUID =>
          match Q.CreateChirp cfg.db { Body := body, UserID := userUUID } with
          | (.error err, db) =>
            ((w.WriteHeader 500).Encode (errorResp.toJson ⟨sprintErr err⟩),
              { cfg with db := db })
          | (.ok resp, db) =>
            ((((w.Set "Content-Type" "application/json").WriteHeader 201).Encode
              (L.chirpJSON resp)), { cfg with db := db })

/-- The method `handlderDisplayAllChirps`. -/
def handlderDisplayAllChirps {σ : Type} (L : Lib) (Q : Queries σ) (cfg : apiConfig σ)
    (w : ResponseWriter) (r : Request Unit) : ResponseWriter × apiConfig σ :=
  if r.Method ≠ "GET" then
    ((w.WriteHeader 405).Encode (errorResp.toJson ⟨"Method not allowed"⟩), cfg)
  else
    match Q.GetAllChirps cfg.db with
    | (.error err, db) =>
      ((w.WriteHeader 500).Encode (errorResp.toJson ⟨sprintErr err⟩), { cfg with db := db })
    | (.ok chirps, db) =>
      ((((w.Set "content-type" "applicaton/json").WriteHeader 200).Encode
        (Json.arr (chirps.map L.chirpJSON))), { cfg with db := db })

/-- The method `handlderDisplaychirp`. -/
def handlderDisplaychirp {σ : Type} (L : Lib) (Q : Queries σ) (cfg : apiConfig σ)
    (w : ResponseWriter) (r : Request Unit) : ResponseWriter × apiConfig σ :=
  if r.Method ≠ "GET" then
    ((w.WriteHeader 405).Encode (errorResp.toJson ⟨"Method not allowed"⟩), cfg)
  else
    match L.uuidParse (r.PathValue "chirp_id") with
    | .error _ => ((w.WriteHeader 404).Encode (errorResp.toJson ⟨"Invalid chirp id"⟩), cfg)
    | .ok chirpID =>
      match Q.GetchirpByID cfg.db chirpID with
      | (.error err, db) =>
        ((w.WriteHeader 404).Encode (errorResp.toJson ⟨sprintErr err⟩), { cfg with db := db })
      | (.ok chirp, db) =>
        ((((w.Set "content-type" "applicaton/json").WriteHeader 200).Encode
          (L.chirpJSON chirp)), { cfg with db := db })

/-! ## Metrics -/

/-- An `http.Handler` with a state of its own. -/
abbrev Handler (τ α : Type) := τ → ResponseWriter → Request α → ResponseWriter × τ

/-- The method `middlewareMetricsInc`: count the request, then hand it to
`next`. -/
def middlewareMetricsInc {σ τ α : Type} (next : Handler τ α) :
    Handler (apiConfig σ × τ) α :=
  fun st w r =>
    let cfg := st.1.hitsAdd 1
    let res := next st.2 w r
    (res.1, (cfg, res.2))

/-- The page of `handlerMetrics` for a counter value. -/
def metricsPage (hits : Int) : String :=
  "<html>\n  <body>\n    <h1>Welcome, Chirpy Admin</h1>\n    <p>Chirpy has been visited "
    ++ toString hits ++ " times!</p>\n  </body>\n</html>"

/-- The method `handlerMetrics`. -/
def handlerMetrics {σ : Type} (cfg : apiConfig σ) (w : ResponseWriter) : ResponseWriter :=
  ((w.Add "Content-Type" "text/html").WriteHeader 200).Write
    (Body.text (metricsPage cfg.hitsLoad))

/-- Requests served one after another by a handler, each with a fresh
response writer. -/
def serveAll {τ α : Type} (h : Handler τ α) : τ → List (Request α) → τ
  | st, [] => st
  | st, r :: rs => serveAll h (h st ResponseWriter.fresh r).2 rs

/-! ## More of the sample library, and sample gateways -/

/-- The value of a hexadecimal digit. -/
def hexVal (c : Char) : Option Nat :=
  if 48 ≤ c.toNat ∧ c.toNat ≤ 57 then some (c.toNat - 48)
  else if 97 ≤ c.toNat ∧ c.toNat ≤ 102 then some (c.toNat - 87)
  else if 65 ≤ c.toNat ∧ c.toNat ≤ 70 then some (c.toNat - 55)
  else none

/-- A reader of the canonical 36-character form of an identifier, one of the
forms `uuid.Parse` accepts; anything else is refused. -/
def parseCanonical (s : GoString) : Except String UUID :=
  if s.length ≠ 36 then .error "invalid UUID length"
  else if s.get? 8 ≠ some '-' ∨ s.get? 13 ≠ some '-' ∨ s.get? 18 ≠ some '-'
      ∨ s.get? 23 ≠ some '-' then .error "invalid UUID format"
  else
    match (s.filter (fun c => c != '-')).mapM hexVal with
    | some ds =>
      if ds.length = 32 then .ok ⟨ds.foldl (fun acc d => 16 * acc + d) 0⟩
      else .error "invalid UUID format"
    | none => .error "invalid UUID format"

/-- A rendering of a chirp with snake-case keys. -/
def chirpSnakeCase (c : Chirp) : Json :=
  Json.obj [("id", Json.uuid c.ID), ("created_at", Json.time c.CreatedAt),
    ("updated_at", Json.time c.UpdatedAt), ("body", Json.text c.Body),
    ("user_id", Json.uuid c.UserID)]

/-- A sample of the library. -/
def sampleLib : Lib where
  lowerCase := caseTableExcerpt
  uuidParse := parseCanonical
  chirpJSON := chirpSnakeCase

/-- A store in memory: users and chirps, newest last. -/
structure Store where
  users : List User
  chirps : List Chirp

/-- A gateway over the store in memory; identifiers count up, and the clock
is the number of records. -/
def memQueries : Queries Store where
  CreateUser := fun st email =>
    let n := st.users.length + st.chirps.length
    let u : User := { ID := ⟨n + 1⟩, CreatedAt := n, UpdatedAt := n, Email := email }
    (.ok u, { st with users := st.users ++ [u] })
  CreateChirp := fun st arg =>
    let n := st.users.length + st.chirps.length
    let c : Chirp :=
      { ID := ⟨n + 1⟩, CreatedAt := n, UpdatedAt := n, Body := arg.Body, UserID := arg.UserID }
    (.ok c, { st with chirps := st.chirps ++ [c] })
  GetAllChirps := fun st => (.ok st.chirps, st)
  GetchirpByID := fun st id =>
    match st.chirps.find? (fun c => c.ID == id) with
    | some c => (.ok c, st)
    | none => (.error "sql: no rows in result set", st)

/-- A gateway whose every call fails. -/
def downQueries : Queries Unit where
  CreateUser := fun st _ => (.error "connection refused", st)
  CreateChirp := fun st _ => (.error "connection refused", st)
  GetAllChirps := fun st => (.error "connection refused", st)
  GetchirpByID := fun st _ => (.error "connection refused", st)

/-- A handler that keeps the requests it was given, oldest first. -/
def recorder {α : Type} : Handler (List (Request α)) α :=
  fun st w r => (w, st ++ [r])

/-! ## Running a handler against a journaled gateway -/

/-- The configuration with an empty journal next to the store. -/
def journaled {σ : Type} (cfg : apiConfig σ) : apiConfig (σ × List Event) :=
  { fileserverHits := cfg.fileserverHits, db := (cfg.db, []), platform := cfg.platform }

/-- The gateway calls a handler made, oldest first. -/
def journal {σ : Type} (out : ResponseWriter × apiConfig (σ × List Event)) : List Event :=
  out.2.db.2

/-- The store a handler left behind. -/
def storeAfter {σ : Type} (out : ResponseWriter × apiConfig (σ × List Event)) : σ :=
  out.2.db.1

/-- One request to `handlerCreateUser`, fresh response writer, empty journal. -/
def runCreateUser {σ : Type} (Q : Queries σ) (cfg : apiConfig σ) (r : Request requestBody) :
    ResponseWriter × apiConfig (σ × List Event) :=
  handlerCreateUser (traced Q) (journaled cfg) ResponseWriter.fresh r

/-- One request to `handlderCreateChirps`, fresh response writer, empty journal. -/
def runCreateChirps {σ : Type} (L : Lib) (Q : Queries σ) (cfg : apiConfig σ)
    (r : Request reqJson) : ResponseWriter × apiConfig (σ × List Event) :=
  handlderCreateChirps L (traced Q) (journaled cfg) ResponseWriter.fresh r

/-- One request to `handlderDisplayAllChirps`, fresh response writer, empty journal. -/
def runDisplayAllChirps {σ : Type} (L : Lib) (Q : Queries σ) (cfg : apiConfig σ)
    (r : Request Unit) : ResponseWriter × apiConfig (σ × List Event) :=
  handlderDisplayAllChirps L (traced Q) (journaled cfg) ResponseWriter.fresh r

/-- One request to `handlderDisplaychirp`, fresh response writer, empty journal. -/
def runDisplaychirp {σ : Type} (L : Lib) (Q : Queries σ) (cfg : apiConfig σ)
    (r : Request Unit) : ResponseWriter × apiConfig (σ × List Event) :=
  handlderDisplaychirp L (traced Q) (journaled cfg) ResponseWriter.fresh r

/-- The body of an error reply of the chirp handlers: one JSON object with
the single field `error`. -/
def errorBody (msg : String) : List Body := [Body.json (Json.obj [("error", Json.str msg)])]

/-- A store with nothing in it. -/
def emptyStore : Store := ⟨[], []⟩

/-- A configuration over the empty store. -/
def sampleCfg : apiConfig Store := ⟨0, emptyStore, ""⟩

/-- A configuration over the gateway that is down. -/
def downCfg : apiConfig Unit := ⟨0, (), ""⟩

/-- An identifier in canonical form. -/
def sampleUserID : GoString := "123e4567-e89b-12d3-a456-426614174000".data

/-- A chirp-creation request: `POST` with a body that decodes. -/
def postChirp (body userID : GoString) : Request reqJson :=
  { Method := "POST", Body := .ok ⟨body, userID⟩, PathValue := fun _ => [] }

/-- A request without a body, with one path value. -/
def plainRequest (method : String) (chirpID : GoString) : Request Unit :=
  { Method := method, Body := .ok (), PathValue := fun _ => chirpID }

/-- A user-creation request that decodes. -/
def userRequest (method : String) (email : GoString) : Request requestBody :=
  { Method := method, Body := .ok ⟨email⟩, PathValue := fun _ => [] }

/-- A handler that does nothing. -/
def idle {α : Type} : Handler Unit α := fun st w _ => (w, st)

/-- The body of 71 copies of U+00E9: 71 code points, 142 bytes. -/
def accentedBody : GoString := List.replicate 71 (Char.ofNat 0xE9)

/-- A run of 2^31 requests, one more than an `int32` can count. -/
def manyRequests : List (Request Unit) := List.replicate 2147483648 (plainRequest "GET" [])

/-! ## Occurrences -/

theorem hasPrefix_iff (s p : GoString) : HasPrefix s p = true ↔ ∃ t, s = p ++ t := by
  induction s generalizing p with
  | nil =>
    cases p with
    | nil => simp [HasPrefix]
    | cons d p => simp [HasPrefix]
  | cons c s ih =>
    cases p with
    | nil => simp [HasPrefix]
    | cons d p =>
      simp only [HasPrefix, Bool.and_eq_true, beq_iff_eq, ih, List.cons_append, List.cons.injEq]
      constructor
      · rintro ⟨h, t, ht⟩
        exact ⟨t, h, ht⟩
      · rintro ⟨t, h, ht⟩
        exact ⟨h, t, ht⟩

theorem occurs_nil_iff (w : GoString) : Occurs w [] ↔ w = [] := by
  constructor
  · rintro ⟨a, b, h⟩
    have h2 := congrArg List.length h
    simp only [List.length_nil, List.length_append] at h2
    exact List.length_eq_zero.mp (by omega)
  · rintro rfl
    exact ⟨[], [], rfl⟩

theorem occurs_cons_iff (w : GoString) (c : Char) (s : GoString) :
    Occurs w (c :: s) ↔ HasPrefix (c :: s) w = true ∨ Occurs w s := by
  rw [hasPrefix_iff]
  constructor
  · rintro ⟨a, b, h⟩
    cases a with
    | nil => exact Or.inl ⟨b, by simpa using h⟩
    | cons d a =>
      simp only [List.cons_append, List.cons.injEq] at h
      exact Or.inr ⟨a, b, h.2⟩
  · rintro (⟨t, h⟩ | ⟨a, b, h⟩)
    · exact ⟨[], t, by simpa using h⟩
    · exact ⟨c :: a, b, by simp [h]⟩

theorem index_eq_none_iff (s sep : GoString) : Index s sep = none ↔ ¬ Occurs sep s := by
  induction s with
  | nil =>
    rw [occurs_nil_iff]
    cases sep <;> simp [Index, HasPrefix]
  | cons c s ih =>
    rw [occurs_cons_iff]
    by_cases h : HasPrefix (c :: s) sep = true
    · simp [Index, h]
    · simp [Index, h, ih]

theorem contains_iff (s sub : GoString) : Contains s sub = true ↔ Occurs sub s := by
  unfold Contains
  rw [Option.isSome_iff_ne_none, ne_eq, index_eq_none_iff, not_not]

theorem contains_eq_false_iff (s sub : GoString) : Contains s sub = false ↔ ¬ Occurs sub s := by
  rw [← contains_iff, Bool.not_eq_true]

theorem index_some (s sep : GoString) (m : Nat) (h : Index s sep = some m) :
    (∃ t, s.drop m = sep ++ t) ∧ m ≤ s.length ∧
      ∀ a b, s = a ++ sep ++ b → m ≤ a.length := by
  induction s generalizing m with
  | nil =>
    by_cases hp : HasPrefix [] sep = true
    · simp only [Index, hp, if_true, Option.some.injEq] at h
      subst h
      exact ⟨by simpa using (hasPrefix_iff [] sep).mp hp, Nat.le_refl _, fun _ _ _ => Nat.zero_le _⟩
    · simp [Index, hp] at h
  | cons c s ih =>
    by_cases hp : HasPrefix (c :: s) sep = true
    · simp only [Index, hp, if_true, Option.some.injEq] at h
      subst h
      exact ⟨by simpa using (hasPrefix_iff (c :: s) sep).mp hp, Nat.zero_le _,
        fun _ _ _ => Nat.zero_le _⟩
    · simp only [Index, hp, Bool.false_eq_true, if_false, Option.map_eq_some'] at h
      obtain ⟨k, hk, rfl⟩ := h
      obtain ⟨h1, h2, h3⟩ := ih k hk
      refine ⟨by simpa using h1, by simpa using h2, ?_⟩
      intro a b hab
      cases a with
      | nil =>
        exact absurd ((hasPrefix_iff (c :: s) sep).mpr ⟨b, by simpa using hab⟩) hp
      | cons d a =>
        simp only [List.cons_append, List.cons.injEq] at hab
        simpa using h3 a b hab.2

theorem occurs_trans {w p s : GoString} (h1 : Occurs w p) (h2 : Occurs p s) : Occurs w s := by
  obtain ⟨a, b, rfl⟩ := h1
  obtain ⟨c, d, rfl⟩ := h2
  exact ⟨c ++ a, b ++ d, by simp [List.append_assoc]⟩

theorem occurs_take (s : GoString) (m : Nat) : Occurs (s.take m) s :=
  ⟨[], s.drop m, by simp⟩

theorem occurs_drop (s : GoString) (m : Nat) : Occurs (s.drop m) s :=
  ⟨s.take m, [], by simp⟩

theorem occurs_refl (s : GoString) : Occurs s s := ⟨[], [], by simp⟩

/-- A word that shares no code point with `u` cannot lie across a copy of `u`. -/
theorem occurs_across {w u : GoString} (hw : w ≠ []) (hu : u ≠ [])
    (hwu : ∀ c ∈ w, c ∉ u) {x y : GoString} (h : Occurs w (x ++ u ++ y)) :
    Occurs w x ∨ Occurs w y := by
  obtain ⟨a, b, h⟩ := h
  have h := h.symm
  rw [List.append_assoc, List.append_assoc, List.append_eq_append_iff] at h
  rcases h with ⟨a', hx, h⟩ | ⟨c', ha, h⟩
  · -- the word starts inside `x`
    rw [List.append_eq_append_iff] at h
    rcases h with ⟨e, ha', hb⟩ | ⟨e, hw', hb⟩
    · left
      exact ⟨a, e, by simp [hx, ha']⟩
    · cases e with
      | nil =>
        left
        exact ⟨a, [], by simp [hx, hw']⟩
      | cons d e =>
        exfalso
        obtain ⟨d', u', rfl⟩ := List.exists_cons_of_ne_nil hu
        simp only [List.cons_append, List.cons.injEq] at hb
        exact hwu d (by simp [hw']) (by simp [hb.1])
  · -- the word starts at or behind the beginning of `u`
    rw [List.append_eq_append_iff] at h
    rcases h with ⟨e, hc, hy⟩ | ⟨e, hu', hb⟩
    · right
      exact ⟨e, b, by simp [hy]⟩
    · cases e with
      | nil =>
        right
        exact ⟨[], b, by simpa using hb.symm⟩
      | cons d e =>
        exfalso
        obtain ⟨d', w', rfl⟩ := List.exists_cons_of_ne_nil hw
        simp only [List.cons_append, List.cons.injEq] at hb
        exact hwu d' (by simp) (by simp [hu', hb.1])

theorem genSplit_ne_nil (sep : GoString) (n : Nat) (s : GoString) : genSplit sep n s ≠ [] := by
  cases n with
  | zero => simp [genSplit]
  | succ n =>
    unfold genSplit
    split <;> simp

/-- Every piece of a split is a block of the string that was split. -/
theorem genSplit_occurs (sep : GoString) (n : Nat) (s : GoString) :
    ∀ p ∈ genSplit sep n s, Occurs p s := by
  induction n generalizing s with
  | zero =>
    intro p hp
    simp only [genSplit, List.mem_singleton] at hp
    subst hp
    exact occurs_refl _
  | succ n ih =>
    intro p hp
    unfold genSplit at hp
    split at hp
    · simp only [List.mem_singleton] at hp
      subst hp
      exact occurs_refl _
    · rename_i m hm
      rcases List.mem_cons.mp hp with rfl | hp
      · exact occurs_take _ _
      · exact occurs_trans (ih _ p hp) (occurs_drop _ _)

/-- No piece of a split contains the separator. -/
theorem genSplit_free (sep : GoString) (hsep : sep ≠ []) (n : Nat) (s : GoString)
    (hn : s.length ≤ n) : ∀ p ∈ genSplit sep n s, ¬ Occurs sep p := by
  induction n generalizing s with
  | zero =>
    intro p hp
    simp only [genSplit, List.mem_singleton] at hp
    subst hp
    have : p = [] := List.length_eq_zero.mp (by omega)
    subst this
    rw [occurs_nil_iff]
    exact hsep
  | succ n ih =>
    intro p hp
    unfold genSplit at hp
    split at hp
    · rename_i hnone
      simp only [List.mem_singleton] at hp
      subst hp
      exact (index_eq_none_iff _ _).mp hnone
    · rename_i m hm
      obtain ⟨-, hle, hleft⟩ := index_some s sep m hm
      have hpos : 0 < sep.length := List.length_pos.mpr hsep
      rcases List.mem_cons.mp hp with rfl | hp
      · rintro ⟨a, b, hab⟩
        have h1 := hleft a (b ++ s.drop m) (by
          conv_lhs => rw [← List.take_append_drop m s, hab]
          simp [List.append_assoc])
        have h2 := congrArg List.length hab
        simp only [List.length_take, List.length_append] at h2
        omega
      · refine ih _ ?_ p hp
        simp only [List.length_drop]
        omega

theorem occurs_join {w u : GoString} (hw : w ≠ []) (hu : u ≠ []) (hwu : ∀ c ∈ w, c ∉ u)
    (ps : List GoString) (h : Occurs w (Join ps u)) : ∃ p ∈ ps, Occurs w p := by
  induction ps with
  | nil =>
    simp only [Join] at h
    exact absurd ((occurs_nil_iff w).mp h) hw
  | cons a rest ih =>
    cases rest with
    | nil => exact ⟨a, by simp, by simpa [Join] using h⟩
    | cons b rest =>
      simp only [Join] at h
      rcases occurs_across hw hu hwu h with h | h
      · exact ⟨a, by simp, h⟩
      · obtain ⟨p, hp, hwp⟩ := ih h
        exact ⟨p, List.mem_cons_of_mem _ hp, hwp⟩

theorem mem_join {c : Char} {u : GoString} (ps : List GoString) (h : c ∈ Join ps u) :
    c ∈ u ∨ ∃ p ∈ ps, c ∈ p := by
  induction ps with
  | nil => simp [Join] at h
  | cons a rest ih =>
    cases rest with
    | nil => exact Or.inr ⟨a, by simp, by simpa [Join] using h⟩
    | cons b rest =>
      simp only [Join, List.mem_append] at h
      rcases h with (h | h) | h
      · exact Or.inr ⟨a, by simp, h⟩
      · exact Or.inl h
      · rcases ih h with h | ⟨p, hp, hcp⟩
        · exact Or.inl h
        · exact Or.inr ⟨p, List.mem_cons_of_mem _ hp, hcp⟩

theorem occurs_mem {w s : GoString} (h : Occurs w s) {c : Char} (hc : c ∈ w) : c ∈ s := by
  obtain ⟨a, b, rfl⟩ := h
  simp [hc]

theorem split_of_not_occurs {s sep : GoString} (hsep : sep ≠ []) (h : ¬ Occurs sep s) :
    Split s sep = [s] := by
  have hi := (index_eq_none_iff s sep).mpr h
  unfold Split
  rw [if_neg hsep]
  cases hl : s.length with
  | zero => simp [genSplit]
  | succ n => simp [genSplit, hi]

theorem toLower_of_lowerClosed {special : Char → Char} {s : GoString}
    (h : LowerClosed special s) : ToLower special s = s := by
  unfold ToLower
  induction s with
  | nil => rfl
  | cons c s ih =>
    simp only [List.map_cons, List.cons.injEq]
    exact ⟨h c (by simp), ih (fun d hd => h d (List.mem_cons_of_mem _ hd))⟩

theorem lowerClosed_toLower {special : Char → Char}
    (hid : ∀ r, unicodeToLower special (unicodeToLower special r) = unicodeToLower special r)
    (s : GoString) : LowerClosed special (ToLower special s) := by
  intro c hc
  simp only [ToLower, List.mem_map] at hc
  obtain ⟨d, -, rfl⟩ := hc
  exact hid d

theorem occurs_toLower {special : Char → Char} {w s : GoString} (h : Occurs w s) :
    Occurs (ToLower special w) (ToLower special s) := by
  obtain ⟨a, b, rfl⟩ := h
  exact ⟨ToLower special a, ToLower special b, by simp [ToLower]⟩

/-! ## One round of the filter -/

theorem mask_ne_nil : mask ≠ [] := by decide

theorem mask_lowerClosed (special : Char → Char) : LowerClosed special mask := by
  intro c hc
  simp only [mask, List.mem_cons, List.mem_singleton, List.not_mem_nil, or_false, or_self] at hc
  subst hc
  rfl

theorem profaneWords_ne_nil : ∀ w ∈ profaneWords, w ≠ [] := by decide

theorem profaneWords_maskFree : ∀ w ∈ profaneWords, MaskFree w := by decide

theorem profaneWords_lowerClosed (special : Char → Char) :
    ∀ w ∈ profaneWords, LowerClosed special w := by
  intro w hw c hc
  simp only [profaneWords, List.mem_cons, List.mem_singleton, List.not_mem_nil, or_false] at hw
  rcases hw with rfl | rfl | rfl <;>
    · simp only [List.mem_cons, List.mem_singleton, List.not_mem_nil, or_false] at hc
      rcases hc with rfl | rfl | rfl | rfl | rfl | rfl | rfl | rfl | rfl <;> rfl

theorem split_occurs {s sep : GoString} (hsep : sep ≠ []) :
    ∀ p ∈ Split s sep, Occurs p s := by
  unfold Split
  rw [if_neg hsep]
  exact genSplit_occurs sep s.length s

theorem split_free {s sep : GoString} (hsep : sep ≠ []) :
    ∀ p ∈ Split s sep, ¬ Occurs sep p := by
  unfold Split
  rw [if_neg hsep]
  exact genSplit_free sep hsep s.length s (Nat.le_refl _)

/-- After a round the line is lowercase. -/
theorem cleanStep_lowerClosed {special : Char → Char}
    (hid : ∀ r, unicodeToLower special (unicodeToLower special r) = unicodeToLower special r)
    (line : GoString) {word : GoString} (hword : word ≠ []) :
    LowerClosed special (cleanStep special line word) := by
  intro c hc
  rcases mem_join _ hc with hc | ⟨p, hp, hcp⟩
  · exact mask_lowerClosed special c hc
  · exact lowerClosed_toLower hid line c (occurs_mem (split_occurs hword p hp) hcp)

/-- After a round the word of that round is gone. -/
theorem cleanStep_free (special : Char → Char) (line : GoString) {word : GoString}
    (hword : word ≠ []) (hfree : MaskFree word) :
    ¬ Occurs word (cleanStep special line word) := by
  intro h
  obtain ⟨p, hp, hwp⟩ := occurs_join hword mask_ne_nil hfree _ h
  exact split_free hword p hp hwp

/-- A round does not create an occurrence of a word that was absent from a
lowercase line. -/
theorem cleanStep_preserves {special : Char → Char} {line word w : GoString}
    (hline : LowerClosed special line) (hword : word ≠ []) (hw : w ≠ [])
    (hfree : MaskFree w) (habs : ¬ Occurs w line) :
    ¬ Occurs w (cleanStep special line word) := by
  intro h
  unfold cleanStep at h
  rw [toLower_of_lowerClosed hline] at h
  obtain ⟨p, hp, hwp⟩ := occurs_join hw mask_ne_nil hfree _ h
  exact habs (occurs_trans hwp (split_occurs hword p hp))

/-- A round leaves a lowercase line without the word as it is. -/
theorem cleanStep_fixed {special : Char → Char} {line word : GoString}
    (hline : LowerClosed special line) (hword : word ≠ []) (habs : ¬ Occurs word line) :
    cleanStep special line word = line := by
  unfold cleanStep
  rw [toLower_of_lowerClosed hline, split_of_not_occurs hword habs]
  rfl

/-- The filtered body is lowercase and free of every denylist word. -/
theorem cleanBody_invariant {special : Char → Char}
    (hid : ∀ r, unicodeToLower special (unicodeToLower special r) = unicodeToLower special r)
    (s : GoString) :
    LowerClosed special (CleanBody special s) ∧
      ∀ w ∈ profaneWords, ¬ Occurs w (CleanBody special s) := by
  have hk : ("kerfuffle".data : GoString) ≠ [] := by decide
  have hs : ("sharbert".data : GoString) ≠ [] := by decide
  have hf : ("fornax".data : GoString) ≠ [] := by decide
  have mk : MaskFree "kerfuffle".data := by decide
  have ms : MaskFree "sharbert".data := by decide
  have mf : MaskFree "fornax".data := by decide
  have e : CleanBody special s =
      cleanStep special (cleanStep special (cleanStep special s "kerfuffle".data)
        "sharbert".data) "fornax".data := rfl
  rw [e]
  have l1 := cleanStep_lowerClosed hid s hk
  have l2 := cleanStep_lowerClosed hid (cleanStep special s "kerfuffle".data) hs
  refine ⟨cleanStep_lowerClosed hid _ hf, ?_⟩
  intro w hw
  simp only [profaneWords, List.mem_cons, List.mem_singleton, List.not_mem_nil, or_false] at hw
  rcases hw with rfl | rfl | rfl
  · exact cleanStep_preserves l2 hf hk mk
      (cleanStep_preserves l1 hs hk mk (cleanStep_free special s hk mk))
  · exact cleanStep_preserves l2 hf hs ms (cleanStep_free special _ hs ms)
  · exact cleanStep_free special _ hf mf

/-! ## A body with one denylist word -/

theorem agree_of_append_eq {u v b y : GoString} (h : u ++ b = v ++ y) : Agree u v = true := by
  unfold Agree
  rw [Bool.or_eq_true, hasPrefix_iff, hasPrefix_iff]
  rw [List.append_eq_append_iff] at h
  rcases h with ⟨t, hv, -⟩ | ⟨t, hu, -⟩
  · exact Or.inr ⟨t, hv⟩
  · exact Or.inl ⟨t, hu⟩

theorem apart_left {u v : GoString} (h : Apart u v = true) {t e : GoString}
    (hu : u = t ++ e) (ht : t ≠ []) (he : e ≠ []) : Agree e v = false := by
  unfold Apart at h
  rw [Bool.and_eq_true, List.all_eq_true] at h
  have hlen : t.length < u.length := by
    rw [hu, List.length_append]
    have := List.length_pos.mpr he
    omega
  have h1 := h.1 t.length (List.mem_range.mpr hlen)
  have hpos : 0 < t.length := List.length_pos.mpr ht
  have hd : u.drop t.length = e := by rw [hu]; simp
  rw [hd] at h1
  have hz : (t.length == 0) = false := by
    rw [beq_eq_false_iff_ne]
    omega
  rw [hz, Bool.false_or, Bool.not_eq_true'] at h1
  exact h1

theorem apart_symm {u v : GoString} (h : Apart u v = true) : Apart v u = true := by
  unfold Apart at h ⊢
  rw [Bool.and_comm]
  exact h

/-- Where a copy of `u` can lie in `x ++ v ++ y` when `u` and `v` are apart:
inside `x`, behind the copy of `v`, or exactly on it. -/
theorem locate {u v : GoString} (hap : Apart u v = true) {a b x y : GoString}
    (h : a ++ u ++ b = x ++ v ++ y) :
    (∃ t, x = a ++ u ++ t) ∨ (∃ t, a = x ++ v ++ t ∧ y = t ++ u ++ b) ∨
      (a = x ∧ Agree u v = true) := by
  rw [List.append_assoc, List.append_assoc, List.append_eq_append_iff] at h
  rcases h with ⟨t, hx, h⟩ | ⟨t, ha, h⟩
  · rw [List.append_eq_append_iff] at h
    rcases h with ⟨e, ht, -⟩ | ⟨e, hu, hb⟩
    · exact Or.inl ⟨e, by simp [hx, ht]⟩
    · by_cases ht : t = []
      · subst ht
        simp only [List.nil_append] at hu
        subst hu
        exact Or.inr (Or.inr ⟨by simpa using hx.symm, agree_of_append_eq hb.symm⟩)
      · by_cases he : e = []
        · subst he
          exact Or.inl ⟨[], by simp [hx, hu]⟩
        · exfalso
          have h1 := apart_left hap hu ht he
          rw [agree_of_append_eq hb.symm] at h1
          exact Bool.noConfusion h1
  · rw [List.append_eq_append_iff] at h
    rcases h with ⟨e, ht, hy⟩ | ⟨e, hv, hb⟩
    · exact Or.inr (Or.inl ⟨e, by simp [ha, ht], by simp [hy]⟩)
    · by_cases ht : t = []
      · subst ht
        simp only [List.nil_append] at hv
        subst hv
        exact Or.inr (Or.inr ⟨by simpa using ha, agree_of_append_eq hb⟩)
      · by_cases he : e = []
        · subst he
          simp only [List.append_nil] at hv
          simp only [List.nil_append] at hb
          exact Or.inr (Or.inl ⟨[], by simp [ha, hv], by simp [hb]⟩)
        · exfalso
          have h1 := apart_left (apart_symm hap) hv ht he
          rw [agree_of_append_eq hb.symm] at h1
          exact Bool.noConfusion h1

/-- Any two denylist words are apart, a word and itself included. -/
theorem profaneWords_apart : ∀ u ∈ profaneWords, ∀ v ∈ profaneWords, Apart u v = true := by
  decide

/-- Two different denylist words do not agree. -/
theorem profaneWords_disagree :
    ∀ u ∈ profaneWords, ∀ v ∈ profaneWords, u ≠ v → Agree u v = false := by
  decide

theorem genSplit_of_not_occurs {s sep : GoString} (h : ¬ Occurs sep s) (n : Nat) :
    genSplit sep n s = [s] := by
  have hi := (index_eq_none_iff s sep).mpr h
  cases n with
  | zero => simp [genSplit]
  | succ n => simp [genSplit, hi]

theorem index_eq_some_of {s sep a b : GoString} (hs : s = a ++ sep ++ b)
    (hleft : ∀ a' b', s = a' ++ sep ++ b' → a.length ≤ a'.length) :
    Index s sep = some a.length := by
  cases hi : Index s sep with
  | none => exact absurd ⟨a, b, hs⟩ ((index_eq_none_iff s sep).mp hi)
  | some m =>
    obtain ⟨⟨t, ht⟩, hle, hmin⟩ := index_some s sep m hi
    have h1 := hmin a b hs
    have h2 := hleft (s.take m) t (by
      conv_lhs => rw [← List.take_append_drop m s, ht]
      simp [List.append_assoc])
    rw [List.length_take] at h2
    congr 1
    omega

/-- Splitting at a word that occurs once, at a known place. -/
theorem split_single {w x y : GoString} (hw : w ≠ []) (hself : Apart w w = true)
    (hx : ¬ Occurs w x) (hy : ¬ Occurs w y) : Split (x ++ w ++ y) w = [x, y] := by
  have hidx : Index (x ++ w ++ y) w = some x.length := by
    apply index_eq_some_of rfl
    intro a' b' h
    rcases locate hself h.symm with ⟨t, ht⟩ | ⟨t, ht, -⟩ | ⟨ht, -⟩
    · exact absurd ⟨a', t, ht⟩ hx
    · rw [ht]
      simp only [List.length_append]
      omega
    · rw [ht]
  have hpos : 0 < w.length := List.length_pos.mpr hw
  unfold Split
  rw [if_neg hw]
  have hl : (x ++ w ++ y).length = (x.length + w.length + y.length - 1) + 1 := by
    simp only [List.length_append]
    omega
  rw [hl]
  simp only [genSplit, hidx]
  have e1 : List.take x.length (x ++ w ++ y) = x := by
    rw [List.append_assoc]
    simp
  have e2 : List.drop (x.length + w.length) (x ++ w ++ y) = y := by
    have : x.length + w.length = (x ++ w).length := by simp
    rw [this]
    simp
  rw [e1, e2, genSplit_of_not_occurs hy]

theorem lowerClosed_append {special : Char → Char} {x y : GoString}
    (hx : LowerClosed special x) (hy : LowerClosed special y) :
    LowerClosed special (x ++ y) := by
  intro c hc
  rcases List.mem_append.mp hc with h | h
  · exact hx c h
  · exact hy c h

/-- The round of the word itself masks its single occurrence. -/
theorem cleanStep_hit {special : Char → Char} {w x y : GoString}
    (hw : w ∈ profaneWords) (hxl : LowerClosed special x) (hyl : LowerClosed special y)
    (hx : ¬ Occurs w x) (hy : ¬ Occurs w y) :
    cleanStep special (x ++ w ++ y) w = x ++ mask ++ y := by
  have hl : LowerClosed special (x ++ w ++ y) :=
    lowerClosed_append (lowerClosed_append hxl (profaneWords_lowerClosed special w hw)) hyl
  unfold cleanStep
  rw [toLower_of_lowerClosed hl,
    split_single (profaneWords_ne_nil w hw) (profaneWords_apart w hw w hw) hx hy]
  rfl

/-- The round of another denylist word leaves the line as it is. -/
theorem cleanStep_miss {special : Char → Char} {w v x y : GoString}
    (hw : w ∈ profaneWords) (hv : v ∈ profaneWords) (hvw : v ≠ w)
    (hxl : LowerClosed special x) (hyl : LowerClosed special y)
    (hx : ¬ Occurs v x) (hy : ¬ Occurs v y) :
    cleanStep special (x ++ w ++ y) v = x ++ w ++ y := by
  have hl : LowerClosed special (x ++ w ++ y) :=
    lowerClosed_append (lowerClosed_append hxl (profaneWords_lowerClosed special w hw)) hyl
  apply cleanStep_fixed hl (profaneWords_ne_nil v hv)
  rintro ⟨a, b, h⟩
  rcases locate (profaneWords_apart v hv w hw) h.symm with ⟨t, ht⟩ | ⟨t, -, ht⟩ | ⟨-, ht⟩
  · exact hx ⟨a, t, ht⟩
  · exact hy ⟨t, b, ht⟩
  · rw [profaneWords_disagree v hv w hw hvw] at ht
    exact Bool.noConfusion ht

/-- A round leaves a line whose only trace of the denylist is a mask as it is. -/
theorem cleanStep_masked {special : Char → Char} {v x y : GoString}
    (hv : v ∈ profaneWords) (hxl : LowerClosed special x) (hyl : LowerClosed special y)
    (hx : ¬ Occurs v x) (hy : ¬ Occurs v y) :
    cleanStep special (x ++ mask ++ y) v = x ++ mask ++ y := by
  have hl : LowerClosed special (x ++ mask ++ y) :=
    lowerClosed_append (lowerClosed_append hxl (mask_lowerClosed special)) hyl
  apply cleanStep_fixed hl (profaneWords_ne_nil v hv)
  intro h
  rcases occurs_across (profaneWords_ne_nil v hv) mask_ne_nil (profaneWords_maskFree v hv) h
    with h | h
  · exact hx h
  · exact hy h

theorem unicodeToLower_ascii (special : Char → Char) (r : Char) (h : r.toNat ≤ 127) :
    unicodeToLower special (unicodeToLower special r) = unicodeToLower special r := by
  have hr : r = Char.ofNat r.toNat := (Char.ofNat_toNat r).symm
  generalize r.toNat = n at h hr
  subst hr
  interval_cases n <;> rfl

theorem caseTableExcerpt_idem (r : Char) :
    unicodeToLower caseTableExcerpt (unicodeToLower caseTableExcerpt r)
      = unicodeToLower caseTableExcerpt r := by
  by_cases h : r.toNat ≤ 127
  · exact unicodeToLower_ascii _ r h
  · have e : unicodeToLower caseTableExcerpt r = caseTableExcerpt r := by
      simp [unicodeToLower, h]
    rw [e]
    unfold caseTableExcerpt
    split
    · rfl
    · split
      · rfl
      · rename_i h1 h2
        simp [unicodeToLower, h, caseTableExcerpt, h1, h2]

theorem toLower_idem {special : Char → Char}
    (hid : ∀ r, unicodeToLower special (unicodeToLower special r) = unicodeToLower special r)
    (s : GoString) : ToLower special (ToLower special s) = ToLower special s :=
  toLower_of_lowerClosed (lowerClosed_toLower hid s)

theorem cleanBody_toLower {special : Char → Char}
    (hid : ∀ r, unicodeToLower special (unicodeToLower special r) = unicodeToLower special r)
    (s : GoString) : CleanBody special (ToLower special s) = CleanBody special s := by
  simp only [CleanBody, profaneWords, List.foldl_cons, List.foldl_nil, cleanStep,
    toLower_idem hid]

theorem toLower_append (special : Char → Char) (x y : GoString) :
    ToLower special (x ++ y) = ToLower special x ++ ToLower special y := by
  simp [ToLower]

/-- The filter on a lowercase line whose only denylist word is one copy of
`w`, with nothing of the denylist before or behind it. -/
theorem cleanBody_single {special : Char → Char} {w x y : GoString}
    (hw : w ∈ profaneWords) (hxl : LowerClosed special x) (hyl : LowerClosed special y)
    (hx : ∀ v ∈ profaneWords, ¬ Occurs v x) (hy : ∀ v ∈ profaneWords, ¬ Occurs v y) :
    CleanBody special (x ++ w ++ y) = x ++ mask ++ y := by
  have mk : ("kerfuffle".data : GoString) ∈ profaneWords := by decide
  have ms : ("sharbert".data : GoString) ∈ profaneWords := by decide
  have mf : ("fornax".data : GoString) ∈ profaneWords := by decide
  have e : ∀ l, CleanBody special l =
      cleanStep special (cleanStep special (cleanStep special l "kerfuffle".data)
        "sharbert".data) "fornax".data := fun _ => rfl
  rw [e]
  have hw' := hw
  simp only [profaneWords, List.mem_cons, List.mem_singleton, List.not_mem_nil, or_false] at hw'
  rcases hw' with rfl | rfl | rfl
  · rw [cleanStep_hit mk hxl hyl (hx _ mk) (hy _ mk),
      cleanStep_masked ms hxl hyl (hx _ ms) (hy _ ms),
      cleanStep_masked mf hxl hyl (hx _ mf) (hy _ mf)]
  · rw [cleanStep_miss ms mk (by decide) hxl hyl (hx _ mk) (hy _ mk),
      cleanStep_hit ms hxl hyl (hx _ ms) (hy _ ms),
      cleanStep_masked mf hxl hyl (hx _ mf) (hy _ mf)]
  · rw [cleanStep_miss mf mk (by decide) hxl hyl (hx _ mk) (hy _ mk),
      cleanStep_miss mf ms (by decide) hxl hyl (hx _ ms) (hy _ ms),
      cleanStep_hit mf hxl hyl (hx _ mf) (hy _ mf)]

/-! ## The filtered line in pieces -/

theorem mask_eq : mask = ['*', '*', '*', '*'] := rfl

theorem sourceOf_append (a b : List Tok) : sourceOf (a ++ b) = sourceOf a ++ sourceOf b := by
  induction a with
  | nil => rfl
  | cons t a ih => simp [sourceOf, ih]

theorem shownOf_append (a b : List Tok) : shownOf (a ++ b) = shownOf a ++ shownOf b := by
  induction a with
  | nil => rfl
  | cons t a ih => simp [shownOf, ih]

theorem sourceOf_plainToks (s : GoString) : sourceOf (plainToks s) = s := by
  induction s with
  | nil => rfl
  | cons c s ih =>
    simp only [plainToks, List.map_cons, sourceOf, Tok.source, List.cons_append,
      List.nil_append, List.cons.injEq, true_and]
    exact ih

theorem shownOf_plainToks (s : GoString) : shownOf (plainToks s) = s := by
  induction s with
  | nil => rfl
  | cons c s ih =>
    simp only [plainToks, List.map_cons, shownOf, Tok.shown, List.cons_append,
      List.nil_append, List.cons.injEq, true_and]
    exact ih

theorem join_cons (x : GoString) (rest : List GoString) (u : GoString) (h : rest ≠ []) :
    Join (x :: rest) u = x ++ u ++ Join rest u := by
  cases rest with
  | nil => exact absurd rfl h
  | cons y rest => rfl

/-- Pieces whose output begins with a mask-free word begin with that word,
kept. -/
theorem toks_of_shown_begin {v : GoString} (hv : MaskFree v) :
    ∀ (toks : List Tok) (b : GoString), shownOf toks = v ++ b →
      ∃ tb, toks = plainToks v ++ tb ∧ shownOf tb = b := by
  induction v with
  | nil =>
    intro toks b h
    exact ⟨toks, rfl, by simpa using h⟩
  | cons c v ih =>
    intro toks b h
    have hv' : MaskFree v := fun d hd => hv d (List.mem_cons_of_mem _ hd)
    cases toks with
    | nil => simp [shownOf] at h
    | cons t rest =>
      cases t with
      | plain d =>
        simp only [shownOf, Tok.shown, List.cons_append, List.nil_append,
          List.cons.injEq] at h
        obtain ⟨rfl, h⟩ := h
        obtain ⟨tb, rfl, htb⟩ := ih hv' rest b h
        exact ⟨tb, rfl, htb⟩
      | masked w =>
        exfalso
        simp only [shownOf, Tok.shown, mask_eq, List.cons_append, List.cons.injEq] at h
        exact hv c (by simp) (by rw [← h.1, mask_eq]; simp)

/-- Pieces whose output contains a mask-free word contain that word, kept,
at the same place. -/
theorem toks_of_shown_occurrence {v : GoString} (hv : MaskFree v) (hne : v ≠ []) :
    ∀ (toks : List Tok) (a b : GoString), shownOf toks = a ++ v ++ b →
      ∃ ta tb, toks = ta ++ plainToks v ++ tb ∧ shownOf ta = a ∧ shownOf tb = b := by
  intro toks
  induction toks with
  | nil =>
    intro a b h
    exact absurd ((occurs_nil_iff v).mp ⟨a, b, h⟩) hne
  | cons t rest ih =>
    intro a b h
    cases a with
    | nil =>
      obtain ⟨tb, ht, htb⟩ := toks_of_shown_begin hv (t :: rest) b (by simpa using h)
      exact ⟨[], tb, by simpa using ht, rfl, htb⟩
    | cons d a =>
      cases t with
      | plain c =>
        simp only [shownOf, Tok.shown, List.cons_append, List.nil_append,
          List.cons.injEq] at h
        obtain ⟨rfl, h⟩ := h
        obtain ⟨ta, tb, rfl, hta, htb⟩ := ih a b h
        exact ⟨Tok.plain c :: ta, tb, by simp, by simp [shownOf, Tok.shown, hta], htb⟩
      | masked w =>
        have h' : mask ++ shownOf rest = (d :: a) ++ (v ++ b) := by
          simpa [shownOf, Tok.shown, List.append_assoc] using h
        rw [List.append_eq_append_iff] at h'
        rcases h' with ⟨a', ha, hr⟩ | ⟨c', hm, hr⟩
        · obtain ⟨ta, tb, rfl, hta, htb⟩ := ih a' b (by simpa [List.append_assoc] using hr)
          exact ⟨Tok.masked w :: ta, tb, by simp,
            by simp [shownOf, Tok.shown, hta, ha], htb⟩
        · cases c' with
          | nil =>
            obtain ⟨ta, tb, rfl, hta, htb⟩ := ih [] b (by simpa using hr.symm)
            exact ⟨Tok.masked w :: ta, tb, by simp,
              by simpa [shownOf, Tok.shown, hta] using hm, htb⟩
          | cons e c' =>
            exfalso
            obtain ⟨f, v', rfl⟩ := List.exists_cons_of_ne_nil hne
            simp only [List.cons_append, List.cons.injEq] at hr
            exact hv f (by simp) (by rw [hm, hr.1]; simp)


/-- One round of splitting and joining, on pieces: the occurrences of the
word that the split finds become masked pieces, nothing else changes. -/
theorem round_toks {v : GoString} (hv : MaskFree v) (hne : v ≠ []) :
    ∀ (n : Nat) (toks : List Tok), (shownOf toks).length ≤ n →
      ∃ toks', sourceOf toks' = sourceOf toks ∧
        shownOf toks' = Join (genSplit v n (shownOf toks)) mask ∧
        ∀ u, Tok.masked u ∈ toks' → Tok.masked u ∈ toks ∨ u = v := by
  intro n
  induction n with
  | zero =>
    intro toks _
    exact ⟨toks, rfl, by simp [genSplit, Join], fun u hu => Or.inl hu⟩
  | succ n ih =>
    intro toks hlen
    cases hi : Index (shownOf toks) v with
    | none => exact ⟨toks, rfl, by simp [genSplit, hi, Join], fun u hu => Or.inl hu⟩
    | some m =>
      obtain ⟨⟨t, ht⟩, -, -⟩ := index_some _ _ _ hi
      have hs : shownOf toks = (shownOf toks).take m ++ v ++ t := by
        conv_lhs => rw [← List.take_append_drop m (shownOf toks), ht]
        simp [List.append_assoc]
      have hd : (shownOf toks).drop (m + v.length) = t := by
        rw [← List.drop_drop, ht]
        simp
      obtain ⟨ta, tb, htoks, hta, htb⟩ := toks_of_shown_occurrence hv hne toks _ _ hs
      have hpos : 0 < v.length := List.length_pos.mpr hne
      have hlt : (shownOf tb).length ≤ n := by
        have h1 := congrArg List.length hs
        rw [htb]
        simp only [List.length_append] at h1
        omega
      obtain ⟨toks2, h1, h2, h3⟩ := ih tb hlt
      refine ⟨ta ++ Tok.masked v :: toks2, ?_, ?_, ?_⟩
      · rw [htoks]
        simp [sourceOf_append, sourceOf, Tok.source, h1, sourceOf_plainToks]
      · simp only [genSplit, hi]
        rw [hd, join_cons _ _ _ (genSplit_ne_nil _ _ _), shownOf_append]
        simp [shownOf, Tok.shown, hta, h2, htb]
      · intro u hu
        rcases List.mem_append.mp hu with hu | hu
        · left
          rw [htoks]
          simp [hu]
        · rcases List.mem_cons.mp hu with hu | hu
          · right
            cases hu
            rfl
          · rcases h3 u hu with h | h
            · left
              rw [htoks]
              simp [h]
            · exact Or.inr h

/-- One round of the filter on a lowercase line, on pieces. -/
theorem cleanStep_toks {special : Char → Char} {v : GoString} (hv : MaskFree v)
    (hne : v ≠ []) (toks : List Tok) (hl : LowerClosed special (shownOf toks)) :
    ∃ toks', sourceOf toks' = sourceOf toks ∧
      shownOf toks' = cleanStep special (shownOf toks) v ∧
      ∀ u, Tok.masked u ∈ toks' → Tok.masked u ∈ toks ∨ u = v := by
  obtain ⟨toks', h1, h2, h3⟩ := round_toks hv hne _ toks (Nat.le_refl _)
  refine ⟨toks', h1, ?_, h3⟩
  rw [h2]
  unfold cleanStep Split
  rw [toLower_of_lowerClosed hl, if_neg hne]

/-- The filtered body in pieces: the lowercased input with some occurrences
of denylist words masked. -/
theorem cleanBody_toks {special : Char → Char}
    (hid : ∀ r, unicodeToLower special (unicodeToLower special r) = unicodeToLower special r)
    (s : GoString) :
    ∃ toks, sourceOf toks = ToLower special s ∧ shownOf toks = CleanBody special s ∧
      ∀ u, Tok.masked u ∈ toks → u ∈ profaneWords := by
  have hk : ("kerfuffle".data : GoString) ≠ [] := by decide
  have hs : ("sharbert".data : GoString) ≠ [] := by decide
  have hf : ("fornax".data : GoString) ≠ [] := by decide
  have mk : MaskFree "kerfuffle".data := by decide
  have ms : MaskFree "sharbert".data := by decide
  have mf : MaskFree "fornax".data := by decide
  have e : CleanBody special s =
      cleanStep special (cleanStep special (cleanStep special (ToLower special s)
        "kerfuffle".data) "sharbert".data) "fornax".data := by
    rw [← cleanBody_toLower hid]
    rfl
  rw [e]
  have l0 : LowerClosed special (shownOf (plainToks (ToLower special s))) := by
    rw [shownOf_plainToks]
    exact lowerClosed_toLower hid s
  obtain ⟨t1, a1, b1, c1⟩ := cleanStep_toks mk hk (plainToks (ToLower special s)) l0
  rw [shownOf_plainToks] at b1
  rw [sourceOf_plainToks] at a1
  have l1 : LowerClosed special (shownOf t1) := by
    rw [b1]
    exact cleanStep_lowerClosed hid _ hk
  obtain ⟨t2, a2, b2, c2⟩ := cleanStep_toks ms hs t1 l1
  have l2 : LowerClosed special (shownOf t2) := by
    rw [b2]
    exact cleanStep_lowerClosed hid _ hs
  obtain ⟨t3, a3, b3, c3⟩ := cleanStep_toks mf hf t2 l2
  refine ⟨t3, by rw [a3, a2, a1], by rw [b3, b2, b1], ?_⟩
  intro u hu
  rcases c3 u hu with h | rfl
  · rcases c2 u h with h | rfl
    · rcases c1 u h with h | rfl
      · simp [plainToks] at h
      · decide
    · decide
  · decide

/-- A word at the beginning of the input either runs over kept pieces only,
or the first masked piece it meets cuts it. -/
theorem plain_run (w : GoString) :
    ∀ (toks : List Tok) (b : GoString), sourceOf toks = w ++ b →
      (∃ tb, toks = plainToks w ++ tb) ∨
      (∃ p e u rest, w = p ++ e ∧ e ≠ [] ∧ toks = plainToks p ++ Tok.masked u :: rest ∧
        e ++ b = u ++ sourceOf rest) := by
  induction w with
  | nil =>
    intro toks b _
    exact Or.inl ⟨toks, rfl⟩
  | cons c w ih =>
    intro toks b h
    cases toks with
    | nil => simp [sourceOf] at h
    | cons t rest =>
      cases t with
      | plain d =>
        simp only [sourceOf, Tok.source, List.cons_append, List.nil_append,
          List.cons.injEq] at h
        obtain ⟨rfl, h⟩ := h
        rcases ih rest b h with ⟨tb, rfl⟩ | ⟨p, e, u, rest', rfl, he, rfl, heq⟩
        · exact Or.inl ⟨tb, rfl⟩
        · exact Or.inr ⟨d :: p, e, u, rest', rfl, he, rfl, heq⟩
      | masked u =>
        exact Or.inr ⟨[], c :: w, u, rest, rfl, by simp, rfl, by simpa [sourceOf, Tok.source] using h.symm⟩

/-- When the masked pieces are denylist words and the output is free of the
denylist, every occurrence of a denylist word in the input is a masked piece. -/
theorem every_occurrence_masked :
    ∀ (toks : List Tok), (∀ u, Tok.masked u ∈ toks → u ∈ profaneWords) →
      (∀ w ∈ profaneWords, ¬ Occurs w (shownOf toks)) →
      ∀ w ∈ profaneWords, ∀ a b, sourceOf toks = a ++ w ++ b →
        ∃ ta tb, toks = ta ++ Tok.masked w :: tb ∧ sourceOf ta = a ∧ sourceOf tb = b := by
  intro toks
  induction toks with
  | nil =>
    intro _ _ w hw a b h
    exact absurd ((occurs_nil_iff w).mp ⟨a, b, h⟩) (profaneWords_ne_nil w hw)
  | cons t rest ih =>
    intro hm hfree w hw a b h
    have hm' : ∀ u, Tok.masked u ∈ rest → u ∈ profaneWords :=
      fun u hu => hm u (List.mem_cons_of_mem _ hu)
    have hfree' : ∀ w ∈ profaneWords, ¬ Occurs w (shownOf rest) := by
      rintro w' hw' ⟨x, y, hxy⟩
      exact hfree w' hw' ⟨t.shown ++ x, y, by simp [shownOf, hxy, List.append_assoc]⟩
    cases t with
    | plain c =>
      cases a with
      | nil =>
        exfalso
        rcases plain_run w (Tok.plain c :: rest) b (by simpa using h) with
          ⟨tb, ht⟩ | ⟨p, e, u, rest', hwpe, he, ht, heq⟩
        · apply hfree w hw
          rw [ht, shownOf_append, shownOf_plainToks]
          exact ⟨[], shownOf tb, by simp⟩
        · have hp : p ≠ [] := by
            rintro rfl
            simp [plainToks] at ht
          have hu : u ∈ profaneWords := hm u (by rw [ht]; simp)
          have h1 := apart_left (profaneWords_apart w hw u hu) hwpe hp he
          rw [agree_of_append_eq heq] at h1
          exact Bool.noConfusion h1
      | cons d a =>
        simp only [sourceOf, Tok.source, List.cons_append, List.nil_append,
          List.cons.injEq] at h
        obtain ⟨rfl, h⟩ := h
        obtain ⟨ta, tb, rfl, hta, htb⟩ := ih hm' hfree' w hw a b h
        exact ⟨Tok.plain c :: ta, tb, by simp, by simp [sourceOf, Tok.source, hta], htb⟩
    | masked u =>
      have hu : u ∈ profaneWords := hm u (by simp)
      have h' : a ++ w ++ b = [] ++ u ++ sourceOf rest := by
        simpa [sourceOf, Tok.source] using h.symm
      rcases locate (profaneWords_apart w hw u hu) h' with ⟨t, ht⟩ | ⟨t, hat, hr⟩ | ⟨ha, hag⟩
      · exact absurd ((occurs_nil_iff w).mp ⟨a, t, ht⟩) (profaneWords_ne_nil w hw)
      · obtain ⟨ta, tb, rfl, hta, htb⟩ := ih hm' hfree' w hw t b hr
        exact ⟨Tok.masked u :: ta, tb, by simp,
          by simpa [sourceOf, Tok.source, hta] using hat.symm, htb⟩
      · have hwu : w = u := by
          by_contra hne
          rw [profaneWords_disagree w hw u hu hne] at hag
          exact Bool.noConfusion hag
        subst hwu
        subst ha
        refine ⟨[], rest, rfl, rfl, ?_⟩
        simpa using h'.symm


/-! ## The claims about the content filter -/

/-- C1: for every input `s`, no denylist word occurs in `CleanBody(s)` under
any casing, and every occurrence has been replaced by `****`.  First, whatever
string `W` lowercases to a denylist word `w` (for the lowercasing the filter
uses, `w` itself included) is not a substring of the result, and `w` is not a
substring of the lowercased result.  Second, the result is the lowercased
input cut into pieces, each a kept code point or a masked denylist word shown
as `****`; every occurrence of a denylist word in the lowercased input, and so
every occurrence of a case variant in the input itself, is one of the masked
pieces, with the text before it and behind it as in the input.  The case table
is assumed to send every code point to one that is its own lowercase, as the
Unicode table does. -/
theorem CleanBody_contains_no_profane_word (special : Char → Char)
    (hid : ∀ r, unicodeToLower special (unicodeToLower special r) = unicodeToLower special r)
    (s : GoString) :
    (∀ w ∈ profaneWords,
      (∀ W, ToLower special W = w → Contains (CleanBody special s) W = false) ∧
      Contains (ToLower special (CleanBody special s)) w = false) ∧
    ∃ toks : List Tok,
      sourceOf toks = ToLower special s ∧
      shownOf toks = CleanBody special s ∧
      (∀ u, Tok.masked u ∈ toks → u ∈ profaneWords) ∧
      (∀ w ∈ profaneWords, ∀ a b, ToLower special s = a ++ w ++ b →
        ∃ ta tb, toks = ta ++ Tok.masked w :: tb ∧ sourceOf ta = a ∧ sourceOf tb = b) ∧
      (∀ w ∈ profaneWords, ∀ A W B, s = A ++ W ++ B → ToLower special W = w →
        ∃ ta tb, toks = ta ++ Tok.masked w :: tb ∧ sourceOf ta = ToLower special A ∧
          sourceOf tb = ToLower special B) := by
  obtain ⟨hl, hfree⟩ := cleanBody_invariant hid s
  refine ⟨?_, ?_⟩
  · intro w hw
    refine ⟨?_, ?_⟩
    · intro W hW
      rw [contains_eq_false_iff]
      intro h
      have h2 := @occurs_toLower special _ _ h
      rw [hW, toLower_of_lowerClosed hl] at h2
      exact hfree w hw h2
    · rw [toLower_of_lowerClosed hl, contains_eq_false_iff]
      exact hfree w hw
  · obtain ⟨toks, h1, h2, h3⟩ := cleanBody_toks hid s
    have h4 := every_occurrence_masked toks h3 (by rw [h2]; exact hfree)
    refine ⟨toks, h1, h2, h3, ?_, ?_⟩
    · intro w hw a b h
      exact h4 w hw a b (by rw [h1]; exact h)
    · intro w hw A W B hs hW
      apply h4 w hw
      rw [h1, hs, toLower_append, toLower_append, hW]

/-- C1 at the sample case table and a body with the three words in mixed
case, one of them spelled with the Kelvin sign and one of them twice in a row;
the output is evaluated as well. -/
theorem CleanBody_contains_no_profane_word_witness :
    (∀ r, unicodeToLower caseTableExcerpt (unicodeToLower caseTableExcerpt r)
      = unicodeToLower caseTableExcerpt r) ∧
    ((∀ w ∈ profaneWords,
      (∀ W, ToLower caseTableExcerpt W = w →
        Contains (CleanBody caseTableExcerpt
          "a \u212AERFUFFLE, Sharbert and forNAXfornax*".data) W = false) ∧
      Contains (ToLower caseTableExcerpt (CleanBody caseTableExcerpt
          "a \u212AERFUFFLE, Sharbert and forNAXfornax*".data)) w = false) ∧
    ∃ toks : List Tok,
      sourceOf toks
        = ToLower caseTableExcerpt "a \u212AERFUFFLE, Sharbert and forNAXfornax*".data ∧
      shownOf toks
        = CleanBody caseTableExcerpt "a \u212AERFUFFLE, Sharbert and forNAXfornax*".data ∧
      (∀ u, Tok.masked u ∈ toks → u ∈ profaneWords) ∧
      (∀ w ∈ profaneWords, ∀ a b,
        ToLower caseTableExcerpt "a \u212AERFUFFLE, Sharbert and forNAXfornax*".data
          = a ++ w ++ b →
        ∃ ta tb, toks = ta ++ Tok.masked w :: tb ∧ sourceOf ta = a ∧ sourceOf tb = b) ∧
      (∀ w ∈ profaneWords, ∀ A W B,
        "a \u212AERFUFFLE, Sharbert and forNAXfornax*".data = A ++ W ++ B →
        ToLower caseTableExcerpt W = w →
        ∃ ta tb, toks = ta ++ Tok.masked w :: tb ∧
          sourceOf ta = ToLower caseTableExcerpt A ∧
          sourceOf tb = ToLower caseTableExcerpt B)) ∧
    CleanBody caseTableExcerpt "a \u212AERFUFFLE, Sharbert and forNAXfornax*".data
      = "a ****, **** and *********".data :=
  ⟨caseTableExcerpt_idem,
    CleanBody_contains_no_profane_word caseTableExcerpt caseTableExcerpt_idem _,
    by decide⟩

/-- C2: for a denylist word `w`, a case variant `W` of it (a string whose
lowercase is `w`) and strings `a`, `b` whose lowercase contains no denylist
word, `CleanBody(a ++ W ++ b) = lower(a) ++ "****" ++ lower(b)`, and the whole
result is lowercase.  The case table is assumed to send every code point to
one that is its own lowercase. -/
theorem CleanBody_single_profane_word (special : Char → Char)
    (hid : ∀ r, unicodeToLower special (unicodeToLower special r) = unicodeToLower special r)
    (w : GoString) (hw : w ∈ profaneWords) (W : GoString) (hW : ToLower special W = w)
    (a b : GoString)
    (ha : ∀ v ∈ profaneWords, Contains (ToLower special a) v = false)
    (hb : ∀ v ∈ profaneWords, Contains (ToLower special b) v = false) :
    CleanBody special (a ++ W ++ b) = ToLower special a ++ mask ++ ToLower special b ∧
    ToLower special (CleanBody special (a ++ W ++ b)) = CleanBody special (a ++ W ++ b) := by
  have key : CleanBody special (a ++ W ++ b)
      = ToLower special a ++ mask ++ ToLower special b := by
    rw [← cleanBody_toLower hid, toLower_append, toLower_append, hW]
    exact cleanBody_single hw (lowerClosed_toLower hid a) (lowerClosed_toLower hid b)
      (fun v hv => (contains_eq_false_iff _ _).mp (ha v hv))
      (fun v hv => (contains_eq_false_iff _ _).mp (hb v hv))
  exact ⟨key, toLower_of_lowerClosed (cleanBody_invariant hid _).1⟩

/-- C2 at the example of the specification: the body
`This is a kerfuffle opinion I need to share with the world`. -/
theorem CleanBody_single_profane_word_witness :
    (∀ r, unicodeToLower caseTableExcerpt (unicodeToLower caseTableExcerpt r)
      = unicodeToLower caseTableExcerpt r) ∧
    "kerfuffle".data ∈ profaneWords ∧
    ToLower caseTableExcerpt "kerfuffle".data = "kerfuffle".data ∧
    (∀ v ∈ profaneWords, Contains (ToLower caseTableExcerpt "This is a ".data) v = false) ∧
    (∀ v ∈ profaneWords, Contains (ToLower caseTableExcerpt
      " opinion I need to share with the world".data) v = false) ∧
    (CleanBody caseTableExcerpt
        ("This is a ".data ++ "kerfuffle".data ++ " opinion I need to share with the world".data)
      = ToLower caseTableExcerpt "This is a ".data ++ mask
        ++ ToLower caseTableExcerpt " opinion I need to share with the world".data ∧
     ToLower caseTableExcerpt (CleanBody caseTableExcerpt
        ("This is a ".data ++ "kerfuffle".data ++ " opinion I need to share with the world".data))
      = CleanBody caseTableExcerpt
        ("This is a ".data ++ "kerfuffle".data ++ " opinion I need to share with the world".data)) ∧
    CleanBody caseTableExcerpt "This is a kerfuffle opinion I need to share with the world".data
      = "this is a **** opinion i need to share with the world".data :=
  ⟨caseTableExcerpt_idem, by decide, by decide, by decide, by decide,
    CleanBody_single_profane_word caseTableExcerpt caseTableExcerpt_idem "kerfuffle".data
      (by decide) "kerfuffle".data (by decide) "This is a ".data
      " opinion I need to share with the world".data (by decide) (by decide),
    by decide⟩

/-- C10: `CleanBody` is idempotent: filtering a filtered body changes neither
its text nor its length (in bytes or in code points).  The case table is
assumed to send every code point to one that is its own lowercase. -/
theorem CleanBody_idempotent (special : Char → Char)
    (hid : ∀ r, unicodeToLower special (unicodeToLower special r) = unicodeToLower special r)
    (s : GoString) :
    CleanBody special (CleanBody special s) = CleanBody special s ∧
    len (CleanBody special (CleanBody special s)) = len (CleanBody special s) ∧
    runeCount (CleanBody special (CleanBody special s)) = runeCount (CleanBody special s) := by
  obtain ⟨hl, hfree⟩ := cleanBody_invariant hid s
  have mk : ("kerfuffle".data : GoString) ∈ profaneWords := by decide
  have ms : ("sharbert".data : GoString) ∈ profaneWords := by decide
  have mf : ("fornax".data : GoString) ∈ profaneWords := by decide
  have key : CleanBody special (CleanBody special s) = CleanBody special s := by
    have e : ∀ l, CleanBody special l =
        cleanStep special (cleanStep special (cleanStep special l "kerfuffle".data)
          "sharbert".data) "fornax".data := fun _ => rfl
    rw [e (CleanBody special s),
      cleanStep_fixed hl (profaneWords_ne_nil _ mk) (hfree _ mk),
      cleanStep_fixed hl (profaneWords_ne_nil _ ms) (hfree _ ms),
      cleanStep_fixed hl (profaneWords_ne_nil _ mf) (hfree _ mf)]
  rw [key]
  exact ⟨rfl, rfl, rfl⟩

/-- C10 at the sample case table and a body in mixed case. -/
theorem CleanBody_idempotent_witness :
    (∀ r, unicodeToLower caseTableExcerpt (unicodeToLower caseTableExcerpt r)
      = unicodeToLower caseTableExcerpt r) ∧
    (CleanBody caseTableExcerpt (CleanBody caseTableExcerpt "My FORNAX is Épique".data)
      = CleanBody caseTableExcerpt "My FORNAX is Épique".data ∧
    len (CleanBody caseTableExcerpt (CleanBody caseTableExcerpt "My FORNAX is Épique".data))
      = len (CleanBody caseTableExcerpt "My FORNAX is Épique".data) ∧
    runeCount (CleanBody caseTableExcerpt
        (CleanBody caseTableExcerpt "My FORNAX is Épique".data))
      = runeCount (CleanBody caseTableExcerpt "My FORNAX is Épique".data)) :=
  ⟨caseTableExcerpt_idem, CleanBody_idempotent caseTableExcerpt caseTableExcerpt_idem _⟩

/-! ## The handlers -/

theorem runeCount_le_len (s : GoString) : runeCount s ≤ len s := by
  induction s with
  | nil => simp [runeCount, len]
  | cons c s ih =>
    have := Char.utf8Size_pos c
    simp only [runeCount, List.length_cons, len] at ih ⊢
    omega

/-- C3: a `POST` whose body decodes and whose filtered body is longer than
140 (in bytes, as `len` counts, or in code points, which is never more) is
answered 400 with the error `Chirp is too long`, and the gateway is not
called and the store is left as it was, whatever the `user_id` is. -/
theorem createChirps_rejects_long_body {σ : Type} (L : Lib) (Q : Queries σ)
    (cfg : apiConfig σ) (r : Request reqJson) (req : reqJson)
    (hm : r.Method = "POST") (hb : r.Body = .ok req)
    (hlen : 140 < len (CleanBody L.lowerCase req.Body) ∨
      140 < runeCount (CleanBody L.lowerCase req.Body)) :
    (runCreateChirps L Q cfg r).1.status = some 400 ∧
    (runCreateChirps L Q cfg r).1.body = errorBody "Chirp is too long" ∧
    journal (runCreateChirps L Q cfg r) = [] ∧
    storeAfter (runCreateChirps L Q cfg r) = cfg.db := by
  have h : 140 < len (CleanBody L.lowerCase req.Body) := by
    rcases hlen with h | h
    · exact h
    · exact Nat.lt_of_lt_of_le h (runeCount_le_len _)
  simp [runCreateChirps, handlderCreateChirps, hm, hb, h, journal, storeAfter, journaled,
    errorBody, errorResp.toJson, ResponseWriter.fresh, ResponseWriter.WriteHeader,
    ResponseWriter.Encode, ResponseWriter.Write]

set_option maxRecDepth 100000 in
/-- C3 at a body of 141 letters `a`, once with a valid and once with an
invalid `user_id`. -/
theorem createChirps_rejects_long_body_witness :
    (140 < len (CleanBody sampleLib.lowerCase (List.replicate 141 'a')) ∨
      140 < runeCount (CleanBody sampleLib.lowerCase (List.replicate 141 'a'))) ∧
    ((runCreateChirps sampleLib memQueries sampleCfg
        (postChirp (List.replicate 141 'a') sampleUserID)).1.status = some 400 ∧
     (runCreateChirps sampleLib memQueries sampleCfg
        (postChirp (List.replicate 141 'a') sampleUserID)).1.body
        = errorBody "Chirp is too long" ∧
     journal (runCreateChirps sampleLib memQueries sampleCfg
        (postChirp (List.replicate 141 'a') sampleUserID)) = [] ∧
     storeAfter (runCreateChirps sampleLib memQueries sampleCfg
        (postChirp (List.replicate 141 'a') sampleUserID)) = sampleCfg.db) ∧
    ((runCreateChirps sampleLib memQueries sampleCfg
        (postChirp (List.replicate 141 'a') "not-a-uuid".data)).1.status = some 400 ∧
     (runCreateChirps sampleLib memQueries sampleCfg
        (postChirp (List.replicate 141 'a') "not-a-uuid".data)).1.body
        = errorBody "Chirp is too long" ∧
     journal (runCreateChirps sampleLib memQueries sampleCfg
        (postChirp (List.replicate 141 'a') "not-a-uuid".data)) = [] ∧
     storeAfter (runCreateChirps sampleLib memQueries sampleCfg
        (postChirp (List.replicate 141 'a') "not-a-uuid".data)) = sampleCfg.db) :=
  ⟨Or.inl (by decide),
    createChirps_rejects_long_body sampleLib memQueries sampleCfg
      (postChirp (List.replicate 141 'a') sampleUserID) ⟨List.replicate 141 'a', sampleUserID⟩
      rfl rfl (Or.inl (by decide)),
    createChirps_rejects_long_body sampleLib memQueries sampleCfg
      (postChirp (List.replicate 141 'a') "not-a-uuid".data)
      ⟨List.replicate 141 'a', "not-a-uuid".data⟩ rfl rfl (Or.inl (by decide))⟩

/-- C4: if the journal of a request to `handlderCreateChirps` holds a call of
`CreateChirp`, that call is the whole journal (the gateway was called exactly
once), the request body decoded, the body passed is exactly `CleanBody` of
the decoded body, it has at most 140 bytes and so at most 140 code points,
and the user id passed is the parsed `user_id`. -/
theorem createChirps_gateway_argument {σ : Type} (L : Lib) (Q : Queries σ)
    (cfg : apiConfig σ) (r : Request reqJson) (arg : CreateChirpParams) (failed : Bool)
    (h : ⟨Call.CreateChirp arg, failed⟩ ∈ journal (runCreateChirps L Q cfg r)) :
    journal (runCreateChirps L Q cfg r) = [⟨Call.CreateChirp arg, failed⟩] ∧
    ∃ req, r.Body = .ok req ∧ arg.Body = CleanBody L.lowerCase req.Body ∧
      len arg.Body ≤ 140 ∧ runeCount arg.Body ≤ 140 ∧
      L.uuidParse req.UserID = .ok arg.UserID := by
  by_cases hm : r.Method = "POST"
  · cases hb : r.Body with
    | error e =>
      simp [runCreateChirps, handlderCreateChirps, hm, hb, journal, journaled] at h
    | ok req =>
      by_cases hlen : 140 < len (CleanBody L.lowerCase req.Body)
      · simp [runCreateChirps, handlderCreateChirps, hm, hb, hlen, journal, journaled] at h
      · cases hu : L.uuidParse req.UserID with
        | error e =>
          simp [runCreateChirps, handlderCreateChirps, hm, hb, hlen, hu, journal,
            journaled] at h
        | ok uid =>
          rcases hq : Q.CreateChirp cfg.db ⟨CleanBody L.lowerCase req.Body, uid⟩
            with ⟨res, db⟩
          have hj : journal (runCreateChirps L Q cfg r)
              = [⟨Call.CreateChirp ⟨CleanBody L.lowerCase req.Body, uid⟩, isError res⟩] := by
            cases res <;>
              simp [runCreateChirps, handlderCreateChirps, hm, hb, hlen, hu, hq, journal,
                journaled, traced, isError]
          rw [hj] at h ⊢
          simp only [List.mem_singleton, Event.mk.injEq, Call.CreateChirp.injEq] at h
          obtain ⟨rfl, rfl⟩ := h
          refine ⟨rfl, req, rfl, rfl, Nat.le_of_not_lt hlen, ?_, hu⟩
          exact Nat.le_trans (runeCount_le_len _) (Nat.le_of_not_lt hlen)
  · simp [runCreateChirps, handlderCreateChirps, hm, journal, journaled] at h

/-- C4 at a body of 70 code points that takes 140 bytes. -/
theorem createChirps_gateway_argument_witness :
    (⟨Call.CreateChirp ⟨List.replicate 70 (Char.ofNat 0xE9),
        ⟨0x123e4567e89b12d3a456426614174000⟩⟩, false⟩ : Event)
      ∈ journal (runCreateChirps sampleLib memQueries sampleCfg
          (postChirp (List.replicate 70 (Char.ofNat 0xC9)) sampleUserID)) ∧
    (journal (runCreateChirps sampleLib memQueries sampleCfg
          (postChirp (List.replicate 70 (Char.ofNat 0xC9)) sampleUserID))
      = [⟨Call.CreateChirp ⟨List.replicate 70 (Char.ofNat 0xE9),
          ⟨0x123e4567e89b12d3a456426614174000⟩⟩, false⟩] ∧
     ∃ req, (postChirp (List.replicate 70 (Char.ofNat 0xC9)) sampleUserID).Body = .ok req ∧
      (⟨List.replicate 70 (Char.ofNat 0xE9),
          ⟨0x123e4567e89b12d3a456426614174000⟩⟩ : CreateChirpParams).Body
        = CleanBody sampleLib.lowerCase req.Body ∧
      len (⟨List.replicate 70 (Char.ofNat 0xE9),
          ⟨0x123e4567e89b12d3a456426614174000⟩⟩ : CreateChirpParams).Body ≤ 140 ∧
      runeCount (⟨List.replicate 70 (Char.ofNat 0xE9),
          ⟨0x123e4567e89b12d3a456426614174000⟩⟩ : CreateChirpParams).Body ≤ 140 ∧
      sampleLib.uuidParse req.UserID
        = .ok (⟨List.replicate 70 (Char.ofNat 0xE9),
          ⟨0x123e4567e89b12d3a456426614174000⟩⟩ : CreateChirpParams).UserID) :=
  ⟨by decide,
    createChirps_gateway_argument sampleLib memQueries sampleCfg
      (postChirp (List.replicate 70 (Char.ofNat 0xC9)) sampleUserID) _ false (by decide)⟩

/-- The reply of `handlderCreateChirps` to a body that is too long. -/
theorem runCreateChirps_too_long {σ : Type} (L : Lib) (Q : Queries σ)
    (cfg : apiConfig σ) (r : Request reqJson) (req : reqJson)
    (hm : r.Method = "POST") (hb : r.Body = .ok req)
    (hlen : 140 < len (CleanBody L.lowerCase req.Body)) :
    runCreateChirps L Q cfg r
      = (⟨[], some 400, errorBody "Chirp is too long"⟩, journaled cfg) := by
  simp [runCreateChirps, handlderCreateChirps, hm, hb, hlen,
    errorBody, errorResp.toJson, ResponseWriter.fresh, ResponseWriter.WriteHeader,
    ResponseWriter.Encode, ResponseWriter.Write]

/-- The reply of `handlderCreateChirps` once the gateway has been called. -/
theorem runCreateChirps_call {σ : Type} (L : Lib) (Q : Queries σ)
    (cfg : apiConfig σ) (r : Request reqJson) (req : reqJson) (uid : UUID)
    (hm : r.Method = "POST") (hb : r.Body = .ok req)
    (hlen : len (CleanBody L.lowerCase req.Body) ≤ 140)
    (hu : L.uuidParse req.UserID = .ok uid) :
    journal (runCreateChirps L Q cfg r)
      = [⟨Call.CreateChirp ⟨CleanBody L.lowerCase req.Body, uid⟩,
          isError (Q.CreateChirp cfg.db ⟨CleanBody L.lowerCase req.Body, uid⟩).1⟩] ∧
    storeAfter (runCreateChirps L Q cfg r)
      = (Q.CreateChirp cfg.db ⟨CleanBody L.lowerCase req.Body, uid⟩).2 ∧
    (∀ chirp, (Q.CreateChirp cfg.db ⟨CleanBody L.lowerCase req.Body, uid⟩).1 = .ok chirp →
      (runCreateChirps L Q cfg r).1.status = some 201 ∧
      (runCreateChirps L Q cfg r).1.body = [Body.json (L.chirpJSON chirp)]) ∧
    (∀ err, (Q.CreateChirp cfg.db ⟨CleanBody L.lowerCase req.Body, uid⟩).1 = .error err →
      (runCreateChirps L Q cfg r).1.status = some 500 ∧
      (runCreateChirps L Q cfg r).1.body = errorBody (sprintErr err)) := by
  have hl : ¬ 140 < len (CleanBody L.lowerCase req.Body) := Nat.not_lt.mpr hlen
  rcases hq : Q.CreateChirp cfg.db ⟨CleanBody L.lowerCase req.Body, uid⟩ with ⟨res, db⟩
  cases res <;>
    simp [runCreateChirps, handlderCreateChirps, hm, hb, hl, hu, hq, journal, storeAfter,
      journaled, traced, isError, errorBody, errorResp.toJson, ResponseWriter.fresh,
      ResponseWriter.WriteHeader, ResponseWriter.Encode, ResponseWriter.Write,
      ResponseWriter.Set]

/-- C5, as amended: a `POST` whose body decodes, whose `user_id` parses and
whose filtered body has at most 140 bytes (Go's `len`) passes validation:
`CreateChirp` is called, once, with the filtered body and the parsed id, and
when it succeeds the reply is 201 with the record it returned. -/
theorem createChirps_accepts_within_byte_limit {σ : Type} (L : Lib) (Q : Queries σ)
    (cfg : apiConfig σ) (r : Request reqJson) (req : reqJson) (uid : UUID)
    (hm : r.Method = "POST") (hb : r.Body = .ok req)
    (hu : L.uuidParse req.UserID = .ok uid)
    (hlen : len (CleanBody L.lowerCase req.Body) ≤ 140) :
    journal (runCreateChirps L Q cfg r)
      = [⟨Call.CreateChirp ⟨CleanBody L.lowerCase req.Body, uid⟩,
          isError (Q.CreateChirp cfg.db ⟨CleanBody L.lowerCase req.Body, uid⟩).1⟩] ∧
    ∀ chirp, (Q.CreateChirp cfg.db ⟨CleanBody L.lowerCase req.Body, uid⟩).1 = .ok chirp →
      (runCreateChirps L Q cfg r).1.status = some 201 ∧
      (runCreateChirps L Q cfg r).1.body = [Body.json (L.chirpJSON chirp)] := by
  obtain ⟨h1, -, h3, -⟩ := runCreateChirps_call L Q cfg r req uid hm hb hlen hu
  exact ⟨h1, h3⟩

/-- C5, as amended, at a body of 70 code points in 140 bytes. -/
theorem createChirps_accepts_within_byte_limit_witness :
    (postChirp (List.replicate 70 (Char.ofNat 0xE9)) sampleUserID).Method = "POST" ∧
    sampleLib.uuidParse sampleUserID = .ok ⟨0x123e4567e89b12d3a456426614174000⟩ ∧
    len (CleanBody sampleLib.lowerCase (List.replicate 70 (Char.ofNat 0xE9))) ≤ 140 ∧
    (journal (runCreateChirps sampleLib memQueries sampleCfg
        (postChirp (List.replicate 70 (Char.ofNat 0xE9)) sampleUserID))
      = [⟨Call.CreateChirp ⟨CleanBody sampleLib.lowerCase (List.replicate 70 (Char.ofNat 0xE9)),
            ⟨0x123e4567e89b12d3a456426614174000⟩⟩,
          isError (memQueries.CreateChirp sampleCfg.db
            ⟨CleanBody sampleLib.lowerCase (List.replicate 70 (Char.ofNat 0xE9)),
              ⟨0x123e4567e89b12d3a456426614174000⟩⟩).1⟩] ∧
    ∀ chirp, (memQueries.CreateChirp sampleCfg.db
        ⟨CleanBody sampleLib.lowerCase (List.replicate 70 (Char.ofNat 0xE9)),
          ⟨0x123e4567e89b12d3a456426614174000⟩⟩).1 = .ok chirp →
      (runCreateChirps sampleLib memQueries sampleCfg
        (postChirp (List.replicate 70 (Char.ofNat 0xE9)) sampleUserID)).1.status = some 201 ∧
      (runCreateChirps sampleLib memQueries sampleCfg
        (postChirp (List.replicate 70 (Char.ofNat 0xE9)) sampleUserID)).1.body
        = [Body.json (sampleLib.chirpJSON chirp)]) :=
  ⟨rfl, rfl, by decide,
    createChirps_accepts_within_byte_limit sampleLib memQueries sampleCfg
      (postChirp (List.replicate 70 (Char.ofNat 0xE9)) sampleUserID)
      ⟨List.replicate 70 (Char.ofNat 0xE9), sampleUserID⟩ ⟨0x123e4567e89b12d3a456426614174000⟩
      rfl rfl rfl (by decide)⟩

/-- C5 as stated fails: a body of 71 copies of U+00E9 has 71 code points
after filtering, its `user_id` parses, and still the request is answered 400
`Chirp is too long` without a gateway call, because the 71 code points take
142 bytes. -/
theorem createChirps_counts_bytes :
    (postChirp accentedBody sampleUserID).Method = "POST" ∧
    sampleLib.uuidParse sampleUserID = .ok ⟨0x123e4567e89b12d3a456426614174000⟩ ∧
    runeCount (CleanBody sampleLib.lowerCase accentedBody) = 71 ∧
    len (CleanBody sampleLib.lowerCase accentedBody) = 142 ∧
    (runCreateChirps sampleLib memQueries sampleCfg
      (postChirp accentedBody sampleUserID)).1.status = some 400 ∧
    (runCreateChirps sampleLib memQueries sampleCfg
      (postChirp accentedBody sampleUserID)).1.body = errorBody "Chirp is too long" ∧
    journal (runCreateChirps sampleLib memQueries sampleCfg
      (postChirp accentedBody sampleUserID)) = [] := by
  have h := runCreateChirps_too_long sampleLib memQueries sampleCfg
    (postChirp accentedBody sampleUserID) ⟨accentedBody, sampleUserID⟩ rfl rfl (by decide)
  refine ⟨rfl, rfl, by decide, by decide, ?_, ?_, ?_⟩
  · rw [h]
  · rw [h]
  · rw [h]
    rfl

/-- C6: a `POST` whose body decodes, whose filtered body is within the limit
the handler enforces (at most 140 bytes) and whose `user_id` does not parse
is answered 400 with the error `Invalid user_id`; the gateway is not called
and the store is left as it was. -/
theorem createChirps_rejects_bad_user_id {σ : Type} (L : Lib) (Q : Queries σ)
    (cfg : apiConfig σ) (r : Request reqJson) (req : reqJson) (e : String)
    (hm : r.Method = "POST") (hb : r.Body = .ok req)
    (hlen : len (CleanBody L.lowerCase req.Body) ≤ 140)
    (hu : L.uuidParse req.UserID = .error e) :
    (runCreateChirps L Q cfg r).1.status = some 400 ∧
    (runCreateChirps L Q cfg r).1.body = errorBody "Invalid user_id" ∧
    journal (runCreateChirps L Q cfg r) = [] ∧
    storeAfter (runCreateChirps L Q cfg r) = cfg.db := by
  have hl : ¬ 140 < len (CleanBody L.lowerCase req.Body) := Nat.not_lt.mpr hlen
  simp [runCreateChirps, handlderCreateChirps, hm, hb, hl, hu, journal, storeAfter, journaled,
    errorBody, errorResp.toJson, ResponseWriter.fresh, ResponseWriter.WriteHeader,
    ResponseWriter.Encode, ResponseWriter.Write]

/-- C6 at the `user_id` `not-a-uuid`. -/
theorem createChirps_rejects_bad_user_id_witness :
    (postChirp "hello".data "not-a-uuid".data).Method = "POST" ∧
    len (CleanBody sampleLib.lowerCase "hello".data) ≤ 140 ∧
    sampleLib.uuidParse "not-a-uuid".data = .error "invalid UUID length" ∧
    ((runCreateChirps sampleLib memQueries sampleCfg
        (postChirp "hello".data "not-a-uuid".data)).1.status = some 400 ∧
     (runCreateChirps sampleLib memQueries sampleCfg
        (postChirp "hello".data "not-a-uuid".data)).1.body = errorBody "Invalid user_id" ∧
     journal (runCreateChirps sampleLib memQueries sampleCfg
        (postChirp "hello".data "not-a-uuid".data)) = [] ∧
     storeAfter (runCreateChirps sampleLib memQueries sampleCfg
        (postChirp "hello".data "not-a-uuid".data)) = sampleCfg.db) :=
  ⟨rfl, by decide, rfl,
    createChirps_rejects_bad_user_id sampleLib memQueries sampleCfg
      (postChirp "hello".data "not-a-uuid".data) ⟨"hello".data, "not-a-uuid".data⟩
      "invalid UUID length" rfl rfl (by decide) rfl⟩

/-! ## Gateway failures and error replies -/

/-- What `handlerCreateUser` does on each of its paths. -/
theorem runCreateUser_paths {σ : Type} (Q : Queries σ) (cfg : apiConfig σ)
    (r : Request requestBody) :
    (journal (runCreateUser Q cfg r) = [] ∧
      ∃ msg code, (runCreateUser Q cfg r).1.status = some code ∧ (code = 405 ∨ code = 400) ∧
        (runCreateUser Q cfg r).1.body = [Body.text (msg ++ "\n")]) ∨
    (∃ email, journal (runCreateUser Q cfg r) = [⟨Call.CreateUser email, true⟩] ∧
      (runCreateUser Q cfg r).1.status = some 500 ∧
      (runCreateUser Q cfg r).1.body = [Body.text ("could not create user" ++ "\n")]) ∨
    (∃ email, journal (runCreateUser Q cfg r) = [⟨Call.CreateUser email, false⟩] ∧
      (runCreateUser Q cfg r).1.status = some 201) := by
  by_cases hm : r.Method = "POST"
  · cases hb : r.Body with
    | error e =>
      left
      refine ⟨?_, "invalid JSON", 400, ?_, Or.inr rfl, ?_⟩ <;>
        simp [runCreateUser, handlerCreateUser, hm, hb, journal, journaled, httpError,
          ResponseWriter.fresh, ResponseWriter.WriteHeader, ResponseWriter.Write,
          ResponseWriter.Set]
    | ok req =>
      rcases hq : Q.CreateUser cfg.db req.Email with ⟨res, db⟩
      cases res with
      | error e =>
        right; left
        refine ⟨req.Email, ?_, ?_, ?_⟩ <;>
          simp [runCreateUser, handlerCreateUser, hm, hb, hq, journal, journaled, traced,
            isError, httpError, ResponseWriter.fresh, ResponseWriter.WriteHeader,
            ResponseWriter.Write, ResponseWriter.Set]
      | ok user =>
        right; right
        refine ⟨req.Email, ?_, ?_⟩ <;>
          simp [runCreateUser, handlerCreateUser, hm, hb, hq, journal, journaled, traced,
            isError, ResponseWriter.fresh, ResponseWriter.WriteHeader,
            ResponseWriter.Write, ResponseWriter.Encode, ResponseWriter.Set]
  · left
    refine ⟨?_, "method not allowed", 405, ?_, Or.inl rfl, ?_⟩ <;>
      simp [runCreateUser, handlerCreateUser, hm, journal, journaled, httpError,
        ResponseWriter.fresh, ResponseWriter.WriteHeader, ResponseWriter.Write,
        ResponseWriter.Set]

/-- What `handlderCreateChirps` does on each of its paths. -/
theorem runCreateChirps_paths {σ : Type} (L : Lib) (Q : Queries σ) (cfg : apiConfig σ)
    (r : Request reqJson) :
    (journal (runCreateChirps L Q cfg r) = [] ∧
      ∃ msg code, (runCreateChirps L Q cfg r).1.status = some code ∧
        (code = 405 ∨ code = 400) ∧ (runCreateChirps L Q cfg r).1.body = errorBody msg) ∨
    (∃ arg msg, journal (runCreateChirps L Q cfg r) = [⟨Call.CreateChirp arg, true⟩] ∧
      (runCreateChirps L Q cfg r).1.status = some 500 ∧
      (runCreateChirps L Q cfg r).1.body = errorBody msg) ∨
    (∃ arg, journal (runCreateChirps L Q cfg r) = [⟨Call.CreateChirp arg, false⟩] ∧
      (runCreateChirps L Q cfg r).1.status = some 201) := by
  by_cases hm : r.Method = "POST"
  · cases hb : r.Body with
    | error e =>
      left
      refine ⟨?_, "Invalid JSON", 400, ?_, Or.inr rfl, ?_⟩ <;>
        simp [runCreateChirps, handlderCreateChirps, hm, hb, journal, journaled, errorBody,
          errorResp.toJson, ResponseWriter.fresh, ResponseWriter.WriteHeader,
          ResponseWriter.Write, ResponseWriter.Encode]
    | ok req =>
      by_cases hlen : 140 < len (CleanBody L.lowerCase req.Body)
      · left
        rw [runCreateChirps_too_long L Q cfg r req hm hb hlen]
        exact ⟨rfl, "Chirp is too long", 400, rfl, Or.inr rfl, rfl⟩
      · cases hu : L.uuidParse req.UserID with
        | error e =>
          left
          refine ⟨?_, "Invalid user_id", 400, ?_, Or.inr rfl, ?_⟩ <;>
            simp [runCreateChirps, handlderCreateChirps, hm, hb, hlen, hu, journal, journaled,
              errorBody, errorResp.toJson, ResponseWriter.fresh, ResponseWriter.WriteHeader,
              ResponseWriter.Write, ResponseWriter.Encode]
        | ok uid =>
          obtain ⟨h1, -, h3, h4⟩ :=
            runCreateChirps_call L Q cfg r req uid hm hb (Nat.le_of_not_lt hlen) hu
          cases hq : (Q.CreateChirp cfg.db ⟨CleanBody L.lowerCase req.Body, uid⟩).1 with
          | error err =>
            right; left
            rw [hq] at h1
            exact ⟨_, sprintErr err, h1, (h4 err hq).1, (h4 err hq).2⟩
          | ok chirp =>
            right; right
            rw [hq] at h1
            exact ⟨_, h1, (h3 chirp hq).1⟩
  · left
    refine ⟨?_, "Method not allowed", 405, ?_, Or.inl rfl, ?_⟩ <;>
      simp [runCreateChirps, handlderCreateChirps, hm, journal, journaled, errorBody,
        errorResp.toJson, ResponseWriter.fresh, ResponseWriter.WriteHeader,
        ResponseWriter.Write, ResponseWriter.Encode]

/-- What `handlderDisplayAllChirps` does on each of its paths. -/
theorem runDisplayAllChirps_paths {σ : Type} (L : Lib) (Q : Queries σ) (cfg : apiConfig σ)
    (r : Request Unit) :
    (journal (runDisplayAllChirps L Q cfg r) = [] ∧
      ∃ msg, (runDisplayAllChirps L Q cfg r).1.status = some 405 ∧
        (runDisplayAllChirps L Q cfg r).1.body = errorBody msg) ∨
    (∃ msg, journal (runDisplayAllChirps L Q cfg r) = [⟨Call.GetAllChirps, true⟩] ∧
      (runDisplayAllChirps L Q cfg r).1.status = some 500 ∧
      (runDisplayAllChirps L Q cfg r).1.body = errorBody msg) ∨
    (journal (runDisplayAllChirps L Q cfg r) = [⟨Call.GetAllChirps, false⟩] ∧
      (runDisplayAllChirps L Q cfg r).1.status = some 200) := by
  by_cases hm : r.Method = "GET"
  · rcases hq : Q.GetAllChirps cfg.db with ⟨res, db⟩
    cases res with
    | error err =>
      right; left
      refine ⟨sprintErr err, ?_, ?_, ?_⟩ <;>
        simp [runDisplayAllChirps, handlderDisplayAllChirps, hm, hq, journal, journaled,
          traced, isError, errorBody, errorResp.toJson, ResponseWriter.fresh,
          ResponseWriter.WriteHeader, ResponseWriter.Write, ResponseWriter.Encode]
    | ok chirps =>
      right; right
      refine ⟨?_, ?_⟩ <;>
        simp [runDisplayAllChirps, handlderDisplayAllChirps, hm, hq, journal, journaled,
          traced, isError, ResponseWriter.fresh, ResponseWriter.WriteHeader,
          ResponseWriter.Write, ResponseWriter.Encode, ResponseWriter.Set]
  · left
    refine ⟨?_, "Method not allowed", ?_, ?_⟩ <;>
      simp [runDisplayAllChirps, handlderDisplayAllChirps, hm, journal, journaled, errorBody,
        errorResp.toJson, ResponseWriter.fresh, ResponseWriter.WriteHeader,
        ResponseWriter.Write, ResponseWriter.Encode]

/-- What `handlderDisplaychirp` does on each of its paths. -/
theorem runDisplaychirp_paths {σ : Type} (L : Lib) (Q : Queries σ) (cfg : apiConfig σ)
    (r : Request Unit) :
    (journal (runDisplaychirp L Q cfg r) = [] ∧
      ∃ msg code, (runDisplaychirp L Q cfg r).1.status = some code ∧
        (code = 405 ∨ code = 404) ∧ (runDisplaychirp L Q cfg r).1.body = errorBody msg) ∨
    (∃ id msg, journal (runDisplaychirp L Q cfg r) = [⟨Call.GetchirpByID id, true⟩] ∧
      (runDisplaychirp L Q cfg r).1.status = some 404 ∧
      (runDisplaychirp L Q cfg r).1.body = errorBody msg) ∨
    (∃ id, journal (runDisplaychirp L Q cfg r) = [⟨Call.GetchirpByID id, false⟩] ∧
      (runDisplaychirp L Q cfg r).1.status = some 200) := by
  by_cases hm : r.Method = "GET"
  · cases hu : L.uuidParse (r.PathValue "chirp_id") with
    | error e =>
      left
      refine ⟨?_, "Invalid chirp id", 404, ?_, Or.inr rfl, ?_⟩ <;>
        simp [runDisplaychirp, handlderDisplaychirp, hm, hu, journal, journaled, errorBody,
          errorResp.toJson, ResponseWriter.fresh, ResponseWriter.WriteHeader,
          ResponseWriter.Write, ResponseWriter.Encode]
    | ok id =>
      rcases hq : Q.GetchirpByID cfg.db id with ⟨res, db⟩
      cases res with
      | error err =>
        right; left
        refine ⟨id, sprintErr err, ?_, ?_, ?_⟩ <;>
          simp [runDisplaychirp, handlderDisplaychirp, hm, hu, hq, journal, journaled,
            traced, isError, errorBody, errorResp.toJson, ResponseWriter.fresh,
            ResponseWriter.WriteHeader, ResponseWriter.Write, ResponseWriter.Encode]
      | ok chirp =>
        right; right
        refine ⟨id, ?_, ?_⟩ <;>
          simp [runDisplaychirp, handlderDisplaychirp, hm, hu, hq, journal, journaled,
            traced, isError, ResponseWriter.fresh, ResponseWriter.WriteHeader,
            ResponseWriter.Write, ResponseWriter.Encode, ResponseWriter.Set]
  · left
    refine ⟨?_, "Method not allowed", 405, ?_, Or.inl rfl, ?_⟩ <;>
      simp [runDisplaychirp, handlderDisplaychirp, hm, journal, journaled, errorBody,
        errorResp.toJson, ResponseWriter.fresh, ResponseWriter.WriteHeader,
        ResponseWriter.Write, ResponseWriter.Encode]

/-- C7, as amended: in each of the four handlers the gateway is called at
most once, and when the call returns an error it is the only call and the
reply is 500 for `handlerCreateUser`, `handlderCreateChirps` and
`handlderDisplayAllChirps`, and 404 for `handlderDisplaychirp`. -/
theorem gateway_error_reply {σ : Type} (L : Lib) (Q : Queries σ) (cfg : apiConfig σ) :
    (∀ r ev, ev ∈ journal (runCreateUser Q cfg r) → ev.failed = true →
      (runCreateUser Q cfg r).1.status = some 500 ∧
      journal (runCreateUser Q cfg r) = [ev]) ∧
    (∀ r ev, ev ∈ journal (runCreateChirps L Q cfg r) → ev.failed = true →
      (runCreateChirps L Q cfg r).1.status = some 500 ∧
      journal (runCreateChirps L Q cfg r) = [ev]) ∧
    (∀ r ev, ev ∈ journal (runDisplayAllChirps L Q cfg r) → ev.failed = true →
      (runDisplayAllChirps L Q cfg r).1.status = some 500 ∧
      journal (runDisplayAllChirps L Q cfg r) = [ev]) ∧
    (∀ r ev, ev ∈ journal (runDisplaychirp L Q cfg r) → ev.failed = true →
      (runDisplaychirp L Q cfg r).1.status = some 404 ∧
      journal (runDisplaychirp L Q cfg r) = [ev]) ∧
    (∀ r, (journal (runCreateUser Q cfg r)).length ≤ 1) ∧
    (∀ r, (journal (runCreateChirps L Q cfg r)).length ≤ 1) ∧
    (∀ r, (journal (runDisplayAllChirps L Q cfg r)).length ≤ 1) ∧
    (∀ r, (journal (runDisplaychirp L Q cfg r)).length ≤ 1) := by
  refine ⟨?_, ?_, ?_, ?_, ?_, ?_, ?_, ?_⟩
  · intro r ev hev hf
    rcases runCreateUser_paths Q cfg r with ⟨hj, -⟩ | ⟨e, hj, hs, -⟩ | ⟨e, hj, -⟩
    · rw [hj] at hev; cases hev
    · rw [hj] at hev ⊢
      rw [List.mem_singleton.mp hev]
      exact ⟨hs, rfl⟩
    · rw [hj] at hev
      rw [List.mem_singleton.mp hev] at hf
      cases hf
  · intro r ev hev hf
    rcases runCreateChirps_paths L Q cfg r with ⟨hj, -⟩ | ⟨a, m, hj, hs, -⟩ | ⟨a, hj, -⟩
    · rw [hj] at hev; cases hev
    · rw [hj] at hev ⊢
      rw [List.mem_singleton.mp hev]
      exact ⟨hs, rfl⟩
    · rw [hj] at hev
      rw [List.mem_singleton.mp hev] at hf
      cases hf
  · intro r ev hev hf
    rcases runDisplayAllChirps_paths L Q cfg r with ⟨hj, -⟩ | ⟨m, hj, hs, -⟩ | ⟨hj, -⟩
    · rw [hj] at hev; cases hev
    · rw [hj] at hev ⊢
      rw [List.mem_singleton.mp hev]
      exact ⟨hs, rfl⟩
    · rw [hj] at hev
      rw [List.mem_singleton.mp hev] at hf
      cases hf
  · intro r ev hev hf
    rcases runDisplaychirp_paths L Q cfg r with ⟨hj, -⟩ | ⟨i, m, hj, hs, -⟩ | ⟨i, hj, -⟩
    · rw [hj] at hev; cases hev
    · rw [hj] at hev ⊢
      rw [List.mem_singleton.mp hev]
      exact ⟨hs, rfl⟩
    · rw [hj] at hev
      rw [List.mem_singleton.mp hev] at hf
      cases hf
  · intro r
    rcases runCreateUser_paths Q cfg r with ⟨hj, -⟩ | ⟨e, hj, -⟩ | ⟨e, hj, -⟩ <;>
      simp [hj]
  · intro r
    rcases runCreateChirps_paths L Q cfg r with ⟨hj, -⟩ | ⟨a, m, hj, -⟩ | ⟨a, hj, -⟩ <;>
      simp [hj]
  · intro r
    rcases runDisplayAllChirps_paths L Q cfg r with ⟨hj, -⟩ | ⟨m, hj, -⟩ | ⟨hj, -⟩ <;>
      simp [hj]
  · intro r
    rcases runDisplaychirp_paths L Q cfg r with ⟨hj, -⟩ | ⟨i, m, hj, -⟩ | ⟨i, hj, -⟩ <;>
      simp [hj]

/-- C7, as amended, against the gateway that is down: one failed call and the
stated status, for each of the four handlers. -/
theorem gateway_error_reply_witness :
    ((⟨Call.CreateUser "a@b.c".data, true⟩ : Event)
        ∈ journal (runCreateUser downQueries downCfg (userRequest "POST" "a@b.c".data)) ∧
      (runCreateUser downQueries downCfg (userRequest "POST" "a@b.c".data)).1.status
        = some 500 ∧
      journal (runCreateUser downQueries downCfg (userRequest "POST" "a@b.c".data))
        = [⟨Call.CreateUser "a@b.c".data, true⟩]) ∧
    ((⟨Call.CreateChirp ⟨"hello".data, ⟨0x123e4567e89b12d3a456426614174000⟩⟩, true⟩ : Event)
        ∈ journal (runCreateChirps sampleLib downQueries downCfg
            (postChirp "Hello".data sampleUserID)) ∧
      (runCreateChirps sampleLib downQueries downCfg
        (postChirp "Hello".data sampleUserID)).1.status = some 500 ∧
      journal (runCreateChirps sampleLib downQueries downCfg
          (postChirp "Hello".data sampleUserID))
        = [⟨Call.CreateChirp ⟨"hello".data, ⟨0x123e4567e89b12d3a456426614174000⟩⟩, true⟩]) ∧
    ((⟨Call.GetAllChirps, true⟩ : Event)
        ∈ journal (runDisplayAllChirps sampleLib downQueries downCfg (plainRequest "GET" [])) ∧
      (runDisplayAllChirps sampleLib downQueries downCfg (plainRequest "GET" [])).1.status
        = some 500 ∧
      journal (runDisplayAllChirps sampleLib downQueries downCfg (plainRequest "GET" []))
        = [⟨Call.GetAllChirps, true⟩]) ∧
    ((⟨Call.GetchirpByID ⟨0x123e4567e89b12d3a456426614174000⟩, true⟩ : Event)
        ∈ journal (runDisplaychirp sampleLib downQueries downCfg
            (plainRequest "GET" sampleUserID)) ∧
      (runDisplaychirp sampleLib downQueries downCfg
        (plainRequest "GET" sampleUserID)).1.status = some 404 ∧
      journal (runDisplaychirp sampleLib downQueries downCfg (plainRequest "GET" sampleUserID))
        = [⟨Call.GetchirpByID ⟨0x123e4567e89b12d3a456426614174000⟩, true⟩]) :=
  ⟨⟨by decide, (gateway_error_reply sampleLib downQueries downCfg).1 _ _ (by decide) rfl⟩,
   ⟨by decide, (gateway_error_reply sampleLib downQueries downCfg).2.1 _ _ (by decide) rfl⟩,
   ⟨by decide, (gateway_error_reply sampleLib downQueries downCfg).2.2.1 _ _ (by decide) rfl⟩,
   ⟨by decide,
     (gateway_error_reply sampleLib downQueries downCfg).2.2.2.1 _ _ (by decide) rfl⟩⟩

/-- C7 as stated fails for `handlderDisplaychirp`: with a well-formed id and
a gateway whose `GetchirpByID` returns an error, the gateway is called once
and the reply is 404, which is not a 500-class status. -/
theorem displaychirp_gateway_error_is_404 :
    journal (runDisplaychirp sampleLib downQueries downCfg (plainRequest "GET" sampleUserID))
      = [⟨Call.GetchirpByID ⟨0x123e4567e89b12d3a456426614174000⟩, true⟩] ∧
    (runDisplaychirp sampleLib downQueries downCfg
      (plainRequest "GET" sampleUserID)).1.status = some 404 ∧
    ¬ ∃ code, (runDisplaychirp sampleLib downQueries downCfg
      (plainRequest "GET" sampleUserID)).1.status = some code ∧ 500 ≤ code ∧ code < 600 := by
  have hs : (runDisplaychirp sampleLib downQueries downCfg
      (plainRequest "GET" sampleUserID)).1.status = some 404 := by decide
  refine ⟨by decide, hs, ?_⟩
  rintro ⟨code, hc, h1, -⟩
  rw [hs] at hc
  cases hc
  omega

/-- C8, as amended: whenever `handlderCreateChirps`, `handlderDisplayAllChirps`
or `handlderDisplaychirp` answers with a status of 400 or more, the body is
one JSON object with the single field `error` holding a message string;
`handlerCreateUser` answers such statuses through `http.Error`, with a
plain-text message and a newline. -/
theorem error_reply_shape {σ : Type} (L : Lib) (Q : Queries σ) (cfg : apiConfig σ) :
    (∀ r code, (runCreateChirps L Q cfg r).1.status = some code → 400 ≤ code →
      ∃ msg, (runCreateChirps L Q cfg r).1.body = errorBody msg) ∧
    (∀ r code, (runDisplayAllChirps L Q cfg r).1.status = some code → 400 ≤ code →
      ∃ msg, (runDisplayAllChirps L Q cfg r).1.body = errorBody msg) ∧
    (∀ r code, (runDisplaychirp L Q cfg r).1.status = some code → 400 ≤ code →
      ∃ msg, (runDisplaychirp L Q cfg r).1.body = errorBody msg) ∧
    (∀ r code, (runCreateUser Q cfg r).1.status = some code → 400 ≤ code →
      ∃ msg, (runCreateUser Q cfg r).1.body = [Body.text (msg ++ "\n")]) := by
  refine ⟨?_, ?_, ?_, ?_⟩
  · intro r code hs hc
    rcases runCreateChirps_paths L Q cfg r with
      ⟨-, m, c, -, -, hb⟩ | ⟨a, m, -, -, hb⟩ | ⟨a, -, h⟩
    · exact ⟨m, hb⟩
    · exact ⟨m, hb⟩
    · rw [h] at hs
      cases hs
      omega
  · intro r code hs hc
    rcases runDisplayAllChirps_paths L Q cfg r with ⟨-, m, -, hb⟩ | ⟨m, -, -, hb⟩ | ⟨-, h⟩
    · exact ⟨m, hb⟩
    · exact ⟨m, hb⟩
    · rw [h] at hs
      cases hs
      omega
  · intro r code hs hc
    rcases runDisplaychirp_paths L Q cfg r with
      ⟨-, m, c, -, -, hb⟩ | ⟨i, m, -, -, hb⟩ | ⟨i, -, h⟩
    · exact ⟨m, hb⟩
    · exact ⟨m, hb⟩
    · rw [h] at hs
      cases hs
      omega
  · intro r code hs hc
    rcases runCreateUser_paths Q cfg r with ⟨-, m, c, -, -, hb⟩ | ⟨e, -, -, hb⟩ | ⟨e, -, h⟩
    · exact ⟨m, hb⟩
    · exact ⟨_, hb⟩
    · rw [h] at hs
      cases hs
      omega

/-- C8, as amended, at four error replies: a chirp with a bad `user_id`, a
`POST` to the list, a malformed chirp id, and a `GET` to user creation. -/
theorem error_reply_shape_witness :
    ((runCreateChirps sampleLib memQueries sampleCfg
        (postChirp "hello".data "not-a-uuid".data)).1.status = some 400 ∧
      ∃ msg, (runCreateChirps sampleLib memQueries sampleCfg
        (postChirp "hello".data "not-a-uuid".data)).1.body = errorBody msg) ∧
    ((runDisplayAllChirps sampleLib memQueries sampleCfg (plainRequest "POST" [])).1.status
        = some 405 ∧
      ∃ msg, (runDisplayAllChirps sampleLib memQueries sampleCfg
        (plainRequest "POST" [])).1.body = errorBody msg) ∧
    ((runDisplaychirp sampleLib memQueries sampleCfg
        (plainRequest "GET" "not-a-uuid".data)).1.status = some 404 ∧
      ∃ msg, (runDisplaychirp sampleLib memQueries sampleCfg
        (plainRequest "GET" "not-a-uuid".data)).1.body = errorBody msg) ∧
    ((runCreateUser memQueries sampleCfg (userRequest "GET" "a@b.c".data)).1.status
        = some 405 ∧
      ∃ msg, (runCreateUser memQueries sampleCfg (userRequest "GET" "a@b.c".data)).1.body
        = [Body.text (msg ++ "\n")]) :=
  ⟨⟨by decide, (error_reply_shape sampleLib memQueries sampleCfg).1 _ 400 (by decide)
      (by decide)⟩,
   ⟨by decide, (error_reply_shape sampleLib memQueries sampleCfg).2.1 _ 405 (by decide)
      (by decide)⟩,
   ⟨by decide, (error_reply_shape sampleLib memQueries sampleCfg).2.2.1 _ 404 (by decide)
      (by decide)⟩,
   ⟨by decide, (error_reply_shape sampleLib memQueries sampleCfg).2.2.2 _ 405 (by decide)
      (by decide)⟩⟩

/-- C8 as stated fails for `handlerCreateUser`: a `GET` is answered 405 with
the plain text `method not allowed` and a newline, which is no JSON object
with an `error` field. -/
theorem createUser_error_is_plain_text :
    (runCreateUser memQueries sampleCfg (userRequest "GET" "a@b.c".data)).1.status
      = some 405 ∧
    (runCreateUser memQueries sampleCfg (userRequest "GET" "a@b.c".data)).1.body
      = [Body.text "method not allowed\n"] ∧
    ¬ ∃ msg, (runCreateUser memQueries sampleCfg (userRequest "GET" "a@b.c".data)).1.body
      = errorBody msg := by
  have hb : (runCreateUser memQueries sampleCfg (userRequest "GET" "a@b.c".data)).1.body
      = [Body.text "method not allowed\n"] := rfl
  refine ⟨by decide, hb, ?_⟩
  rintro ⟨msg, h⟩
  rw [hb] at h
  simp [errorBody] at h

/-! ## The request counter -/

theorem wrapInt32_succ (x : Int) (n : Nat) :
    wrapInt32 (wrapInt32 (x + 1) + n) = wrapInt32 (x + (n + 1 : Nat)) := by
  unfold wrapInt32
  push_cast
  omega

/-- The state after a run of requests through the middleware: the counter
has advanced by the number of requests, with wrap, and the wrapped handler
has seen each request once. -/
theorem serveAll_middleware {σ τ α : Type} (next : Handler τ α) (cfg : apiConfig σ) (t : τ)
    (reqs : List (Request α)) (h0 : wrapInt32 cfg.fileserverHits = cfg.fileserverHits) :
    (serveAll (middlewareMetricsInc next) (cfg, t) reqs).1.fileserverHits
      = wrapInt32 (cfg.fileserverHits + reqs.length) ∧
    (serveAll (middlewareMetricsInc next) (cfg, t) reqs).2 = serveAll next t reqs := by
  induction reqs generalizing cfg t with
  | nil =>
    refine ⟨?_, rfl⟩
    show cfg.fileserverHits = wrapInt32 (cfg.fileserverHits + 0)
    rw [add_zero]
    exact h0.symm
  | cons r rs ih =>
    have hstep : wrapInt32 (cfg.hitsAdd 1).fileserverHits = (cfg.hitsAdd 1).fileserverHits := by
      simp only [apiConfig.hitsAdd, wrapInt32]
      omega
    obtain ⟨h1, h2⟩ := ih (cfg.hitsAdd 1) (next t ResponseWriter.fresh r).2 hstep
    simp only [serveAll, middlewareMetricsInc]
    refine ⟨?_, h2⟩
    rw [h1]
    simp only [apiConfig.hitsAdd, List.length_cons]
    exact wrapInt32_succ _ _

theorem serveAll_recorder {α : Type} (log reqs : List (Request α)) :
    serveAll recorder log reqs = log ++ reqs := by
  induction reqs generalizing log with
  | nil => simp [serveAll]
  | cons r rs ih => simp [serveAll, recorder, ih]

/-- C9, as amended: starting from a counter of 0, after `N` requests served
one after another through `middlewareMetricsInc`, with `N` below 2^31 (the
counter is an `atomic.Int32`), the counter reads exactly `N`, the metrics
report shows `N`, and the wrapped handler has been given each request exactly
once, in order. -/
theorem middleware_counts_requests {σ τ α : Type} (next : Handler τ α) (cfg : apiConfig σ)
    (t : τ) (reqs : List (Request α)) (h0 : cfg.fileserverHits = 0)
    (hN : reqs.length < 2147483648) :
    (serveAll (middlewareMetricsInc next) (cfg, t) reqs).1.hitsLoad = reqs.length ∧
    (handlerMetrics (serveAll (middlewareMetricsInc next) (cfg, t) reqs).1
      ResponseWriter.fresh).body = [Body.text (metricsPage reqs.length)] ∧
    (serveAll (middlewareMetricsInc next) (cfg, t) reqs).2 = serveAll next t reqs ∧
    (serveAll (middlewareMetricsInc recorder) (cfg, []) reqs).2 = reqs := by
  have hw : wrapInt32 cfg.fileserverHits = cfg.fileserverHits := by
    rw [h0]
    rfl
  obtain ⟨h1, h2⟩ := serveAll_middleware next cfg t reqs hw
  have h3 : (serveAll (middlewareMetricsInc next) (cfg, t) reqs).1.hitsLoad = reqs.length := by
    unfold apiConfig.hitsLoad
    rw [h1, h0]
    unfold wrapInt32
    omega
  refine ⟨h3, ?_, h2, ?_⟩
  · simp [handlerMetrics, h3, ResponseWriter.fresh, ResponseWriter.WriteHeader,
      ResponseWriter.Write, ResponseWriter.Add]
  · rw [(serveAll_middleware recorder cfg [] reqs hw).2, serveAll_recorder]
    rfl

/-- C9, as amended, at three requests. -/
theorem middleware_counts_requests_witness :
    sampleCfg.fileserverHits = 0 ∧
    [plainRequest "GET" [], plainRequest "GET" [], plainRequest "HEAD" []].length
      < 2147483648 ∧
    ((serveAll (middlewareMetricsInc idle) (sampleCfg, ())
        [plainRequest "GET" [], plainRequest "GET" [], plainRequest "HEAD" []]).1.hitsLoad
        = ([plainRequest "GET" [], plainRequest "GET" [], plainRequest "HEAD" []].length
            : Nat) ∧
     (handlerMetrics (serveAll (middlewareMetricsInc idle) (sampleCfg, ())
        [plainRequest "GET" [], plainRequest "GET" [], plainRequest "HEAD" []]).1
        ResponseWriter.fresh).body
        = [Body.text (metricsPage
            ([plainRequest "GET" [], plainRequest "GET" [], plainRequest "HEAD" []].length
              : Nat))] ∧
     (serveAll (middlewareMetricsInc idle) (sampleCfg, ())
        [plainRequest "GET" [], plainRequest "GET" [], plainRequest "HEAD" []]).2
        = serveAll idle ()
            [plainRequest "GET" [], plainRequest "GET" [], plainRequest "HEAD" []] ∧
     (serveAll (middlewareMetricsInc recorder) (sampleCfg, [])
        [plainRequest "GET" [], plainRequest "GET" [], plainRequest "HEAD" []]).2
        = [plainRequest "GET" [], plainRequest "GET" [], plainRequest "HEAD" []]) :=
  ⟨rfl, by decide,
    middleware_counts_requests idle sampleCfg ()
      [plainRequest "GET" [], plainRequest "GET" [], plainRequest "HEAD" []] rfl (by decide)⟩

theorem manyRequests_length : manyRequests.length = 2147483648 :=
  List.length_replicate _ _

theorem downCfg_inRange : wrapInt32 downCfg.fileserverHits = downCfg.fileserverHits := by
  decide

theorem wrap_at_limit :
    wrapInt32 (downCfg.fileserverHits + (2147483648 : Nat)) = -2147483648 := by
  simp only [downCfg, wrapInt32]
  norm_num

theorem hitsLoad_eq {σ : Type} (cfg : apiConfig σ) : cfg.hitsLoad = cfg.fileserverHits := rfl

/-- C9 as stated fails at `N = 2^31`: after 2147483648 requests from a counter
of 0 the counter reads -2147483648, not `N`. -/
theorem middleware_counter_wraps :
    downCfg.fileserverHits = 0 ∧
    (serveAll (middlewareMetricsInc idle) (downCfg, ()) manyRequests).1.hitsLoad
      = -2147483648 ∧
    (serveAll (middlewareMetricsInc idle) (downCfg, ()) manyRequests).1.hitsLoad
      ≠ (manyRequests.length : Nat) := by
  have h := (@serveAll_middleware Unit Unit Unit idle downCfg () manyRequests
    downCfg_inRange).1
  rw [manyRequests_length, wrap_at_limit, ← hitsLoad_eq] at h
  refine ⟨rfl, h, ?_⟩
  rw [h, manyRequests_length]
  norm_num

end Chirpy
